import Mathlib

/-!
Decision engine core: labelling and out-of-distribution warnings

A shallow embedding of `src/cpp/engine.cpp`.  The two functions of the engine
work on IEEE-754 binary64 numbers (`double`), on `std::string` and on
`std::unordered_map<std::string, double>`; the first part of this file embeds
these, the second part embeds the two functions, the third part proves the
properties.

Numbers

A `double` is `F64`: a NaN, a signed infinity, or a signed finite number
`(-1)^neg * m * 2^e`.  Comparisons are the IEEE-754 ones (exact, false as soon
as one side is a NaN); subtraction and division compute the exact result and
round it to the nearest binary64 number, ties to even.
-/

namespace Engine

/-- An IEEE-754 binary64 number: `fin neg m e` stands for `(-1)^neg * m * 2^e`. -/
inductive F64 where
  | nan : F64
  | inf (neg : Bool) : F64
  | fin (neg : Bool) (m : Nat) (e : Int) : F64
deriving DecidableEq, Repr

namespace F64

/-- The smallest exponent of the least significant bit (subnormal numbers). -/
def emin : Int := -1074

/-- The largest exponent of the least significant bit of a 53-bit significand. -/
def emax : Int := 971

/-- The terms of `F64` that are binary64 numbers in canonical form: the
significand has at most 53 bits, the exponent is in range, and the significand
is normalised unless the number is subnormal (or zero). -/
def valid : F64 → Bool
  | nan => true
  | inf _ => true
  | fin _ m e => decide (m < 2 ^ 53) && decide (emin ≤ e) && decide (e ≤ emax)
      && (decide (e = emin) || decide (2 ^ 52 ≤ m))

/-- The C++ `std::isnan`. -/
def isNaN : F64 → Bool
  | nan => true
  | _ => false

/-- The C++ `std::isfinite`. -/
def isFinite : F64 → Bool
  | fin _ _ _ => true
  | _ => false

/-- The signed significand of a finite number. -/
def sint (neg : Bool) (m : Nat) : Int := if neg then -(m : Int) else (m : Int)

/-- The signed significand of `(-1)^neg * m * 2^e` once rescaled to the exponent `e0 ≤ e`. -/
def scaled (neg : Bool) (m : Nat) (e e0 : Int) : Int := sint neg m * 2 ^ (e - e0).toNat

/-- The IEEE-754 comparison: `none` when the operands are unordered (one is a NaN). -/
def cmp : F64 → F64 → Option Ordering
  | nan, _ => none
  | _, nan => none
  | inf n1, inf n2 => some (if n1 = n2 then .eq else if n1 then .lt else .gt)
  | inf n1, fin _ _ _ => some (if n1 then .lt else .gt)
  | fin _ _ _, inf n2 => some (if n2 then .gt else .lt)
  | fin n1 m1 e1, fin n2 m2 e2 =>
      some (compare (scaled n1 m1 e1 (min e1 e2)) (scaled n2 m2 e2 (min e1 e2)))

/-- The C++ `a >= b` on doubles. -/
def ge (a b : F64) : Bool :=
  match cmp a b with
  | some .gt => true
  | some .eq => true
  | _ => false

/-- The C++ `a <= b` on doubles. -/
def le (a b : F64) : Bool :=
  match cmp a b with
  | some .lt => true
  | some .eq => true
  | _ => false

/-- The C++ `a < b` on doubles. -/
def lt (a b : F64) : Bool :=
  match cmp a b with
  | some .lt => true
  | _ => false

/-- The C++ `a > b` on doubles. -/
def gt (a b : F64) : Bool :=
  match cmp a b with
  | some .gt => true
  | _ => false

/-- The C++ `std::fabs`: clears the sign (a NaN stays a NaN). -/
def fabs : F64 → F64
  | nan => nan
  | inf _ => inf false
  | fin _ m e => fin false m e

/-- The number of bits of `n` (0 for 0), by repeated halving; `fuel` bounds the number of steps. -/
def bitLenAux : Nat → Nat → Nat
  | 0, _ => 0
  | fuel + 1, n => if n = 0 then 0 else bitLenAux fuel (n / 2) + 1

/-- The number of bits of `n`: `bitLen n = k` iff `2^(k-1) ≤ n < 2^k` for `n > 0`. -/
def bitLen (n : Nat) : Nat := bitLenAux n n

/-- The quotient `p / q` rounded to the nearest integer, ties to the even one. -/
def divRNE (p q : Nat) : Nat :=
  let d := p / q
  let r := p % q
  if 2 * r < q then d
  else if q < 2 * r then d + 1
  else if d % 2 = 0 then d else d + 1

/-- The integer part of the base-2 logarithm of `p / q`, for `p, q > 0`. -/
def ilog2 (p q : Nat) : Int :=
  let d : Int := (bitLen p : Int) - (bitLen q : Int)
  if q * 2 ^ d.toNat ≤ p * 2 ^ (-d).toNat then d else d - 1

/-- Rounding to binary64, to nearest, ties to even: the number nearest to
`(-1)^neg * (p / q) * 2^e`, for `p, q > 0`.  The exponent of the result is the
one that gives a 53-bit significand, but not below `emin` (there the result is
subnormal or zero); a result above the largest finite number is an infinity. -/
def round (neg : Bool) (p q : Nat) (e : Int) : F64 :=
  let ex : Int := max emin (ilog2 p q + e - 52)
  let m := divRNE (p * 2 ^ (e - ex).toNat) (q * 2 ^ (ex - e).toNat)
  let (m, ex) := if m = 2 ^ 53 then (2 ^ 52, ex + 1) else (m, ex)
  if emax < ex then inf neg else fin neg m ex

/-- The C++ `a - b` on doubles (IEEE-754 subtraction, round to nearest even). -/
def sub : F64 → F64 → F64
  | nan, _ => nan
  | _, nan => nan
  | inf n1, inf n2 => if n1 = n2 then nan else inf n1
  | inf n1, fin _ _ _ => inf n1
  | fin _ _ _, inf n2 => inf (!n2)
  | fin n1 m1 e1, fin n2 m2 e2 =>
      let e0 := min e1 e2
      let x : Int := scaled n1 m1 e1 e0 - scaled n2 m2 e2 e0
      if x = 0 then fin (n1 && !n2) 0 emin
      else round (decide (x < 0)) x.natAbs 1 e0

/-- The C++ `a / b` on doubles (IEEE-754 division, round to nearest even). -/
def div : F64 → F64 → F64
  | nan, _ => nan
  | _, nan => nan
  | inf _, inf _ => nan
  | inf n1, fin n2 _ _ => inf (xor n1 n2)
  | fin n1 _ _, inf n2 => fin (xor n1 n2) 0 emin
  | fin n1 m1 e1, fin n2 m2 e2 =>
      if m2 = 0 then (if m1 = 0 then nan else inf (xor n1 n2))
      else if m1 = 0 then fin (xor n1 n2) 0 emin
      else round (xor n1 n2) m1 m2 (e1 - e2)

/-- The double that a decimal literal `n * 10^(-d)` or `n * 10^d` denotes: the
nearest binary64 number. -/
def ofDec (neg : Bool) (n : Nat) (d : Int) : F64 :=
  if n = 0 then fin neg 0 emin
  else round neg (n * 10 ^ d.toNat) (10 ^ (-d).toNat) 0

/-- The double of a natural number literal. -/
def ofNat (n : Nat) : F64 := ofDec false n 0

/-- The literal `1e-12` of `engine.cpp`: the double nearest to `10^(-12)`. -/
def tiny : F64 := ofDec false 1 (-12)

/-- The text that a stream with `std::ios::fixed` and `precision(2)` writes for
a double when the stream has the classic `"C"` locale, the global locale of a
process that never sets one (`fmtFixed2Loc` below is the text under any
locale).  A finite number is written as its exact value rounded to two
decimals (to nearest, ties to even), with a minus sign when the sign bit is
set; an infinity is written `inf` or `-inf` and a NaN `nan`. -/
def fmtFixed2 : F64 → String
  | nan => "nan"
  | inf neg => if neg then "-inf" else "inf"
  | fin neg m e =>
      let n := divRNE (m * 100 * 2 ^ e.toNat) (2 ^ (-e).toNat)
      (if neg then "-" else "") ++ Nat.repr (n / 100) ++ "."
        ++ String.mk [Nat.digitChar (n % 100 / 10), Nat.digitChar (n % 10)]

end F64

/-!
Maps

A `std::unordered_map<std::string, double>` is a list of entries with distinct
keys; the order of the list is the iteration order of the map.
-/

/-- A `std::unordered_map<std::string, double>`. -/
structure UMap where
  entries : List (String × F64)
  nodup : (entries.map Prod.fst).Nodup

namespace UMap

/-- The lookup on a list of entries. -/
def findIn (key : String) : List (String × F64) → Option F64
  | [] => none
  | (k, v) :: rest => if k = key then some v else findIn key rest

/-- The member `find` of the map: `none` stands for `end()`. -/
def find (m : UMap) (key : String) : Option F64 := findIn key m.entries

/-- The map with no entry. -/
def empty : UMap := ⟨[], List.nodup_nil⟩

/-- The map with one entry. -/
def single (key : String) (v : F64) : UMap := ⟨[(key, v)], by simp⟩

/-- The map with two entries, in the iteration order `k1`, `k2`. -/
def pair (k1 : String) (v1 : F64) (k2 : String) (v2 : F64) (h : k1 ≠ k2) : UMap :=
  ⟨[(k1, v1), (k2, v2)], by simp [h]⟩

/-- The map without the entry of `key`; the other entries keep their order. -/
def erase (m : UMap) (key : String) : UMap :=
  ⟨m.entries.filter (fun kv => decide (kv.1 ≠ key)),
    List.Nodup.sublist ((List.filter_sublist _).map _) m.nodup⟩

end UMap

/-!
The engine
-/

/-- The function `label_from_threshold` of `engine.cpp`. -/
def label_from_threshold (prob threshold : F64) : String :=
  if F64.ge prob threshold then "high_risk" else "low_risk"

/-- The text that `ood_warnings` pushes for `key`, the z-score `z` and the threshold. -/
def warning (key : String) (z z_threshold : F64) : String :=
  "ood_warning:" ++ key ++ ":z=" ++ F64.fmtFixed2 z ++ " (threshold="
    ++ F64.fmtFixed2 z_threshold ++ ")"

/-- What follows the key in a warning, after the colon. -/
def warningTail (z t : F64) : List Char :=
  "z=".data ++ (F64.fmtFixed2 z).data ++ " (threshold=".data ++ (F64.fmtFixed2 t).data ++ [')']

/-- The body of the loop of `ood_warnings`: `out` is the vector built so far,
`kv` the entry of `payload` the loop is at. -/
def ood_step (means stds : UMap) (z_threshold : F64) (out : List String)
    (kv : String × F64) : List String :=
  match means.find kv.1, stds.find kv.1 with
  | some mu, some sd =>
      if !F64.isFinite mu || !F64.isFinite sd || F64.le sd F64.tiny then out
      else
        let z := F64.div (F64.sub kv.2 mu) sd
        if F64.ge (F64.fabs z) z_threshold then out ++ [warning kv.1 z z_threshold]
        else out
  | _, _ => out

/-- The function `ood_warnings` of `engine.cpp`, called while the global
locale is the classic `"C"` locale (`ood_warnings_loc` below is the call under
any global locale). -/
def ood_warnings (payload means stds : UMap) (z_threshold : F64) : List String :=
  payload.entries.foldl (ood_step means stds z_threshold) []

/-!
Instrumented runs

The same loop, with the division made observable: `ood_divisors` collects the
divisors the loop divides by, and `ood_warnings_checked` is the loop on a
machine where a division by zero is an error.
-/

/-- The zeros `+0.0` and `-0.0`. -/
def F64.isZero : F64 → Bool
  | .fin _ 0 _ => true
  | _ => false

/-- A division that fails on a zero divisor. -/
def F64.divChecked (a b : F64) : Option F64 :=
  if F64.isZero b then none else some (F64.div a b)

/-- The body of the loop of `ood_warnings`, recording the divisor of each division it performs. -/
def ood_step_divisors (means stds : UMap) (ds : List F64) (kv : String × F64) : List F64 :=
  match means.find kv.1, stds.find kv.1 with
  | some mu, some sd =>
      if !F64.isFinite mu || !F64.isFinite sd || F64.le sd F64.tiny then ds
      else ds ++ [sd]
  | _, _ => ds

/-- The divisors of the divisions that a call of `ood_warnings` performs, in order. -/
def ood_divisors (payload means stds : UMap) : List F64 :=
  payload.entries.foldl (ood_step_divisors means stds) []

/-- The body of the loop of `ood_warnings` with the checked division: `none` is the error. -/
def ood_step_checked (means stds : UMap) (z_threshold : F64) (out : Option (List String))
    (kv : String × F64) : Option (List String) :=
  match out with
  | none => none
  | some out =>
    match means.find kv.1, stds.find kv.1 with
    | some mu, some sd =>
        if !F64.isFinite mu || !F64.isFinite sd || F64.le sd F64.tiny then some out
        else
          match F64.divChecked (F64.sub kv.2 mu) sd with
          | none => none
          | some z =>
              if F64.ge (F64.fabs z) z_threshold then some (out ++ [warning kv.1 z z_threshold])
              else some out
    | _, _ => some out

/-- The function `ood_warnings` with the checked division. -/
def ood_warnings_checked (payload means stds : UMap) (z_threshold : F64) :
    Option (List String) :=
  payload.entries.foldl (ood_step_checked means stds z_threshold) (some [])

/-!
Vocabulary of the properties
-/

/-- The z-score of a payload entry, `(value - mean) / std`, as the loop computes it. -/
def zscore (value mu sd : F64) : F64 := F64.div (F64.sub value mu) sd

/-- A text is a warning for `key` when it is the warning text of `key` for some
z-score and some threshold. -/
def IsWarningFor (key : String) (s : String) : Prop :=
  ∃ z t : F64, s = warning key z t

/-- Fixed-point notation with exactly two digits after the decimal point: an
optional minus sign, one digit or more, a point, two digits. -/
def IsFixed2 (s : String) : Prop :=
  ∃ (neg : Bool) (ip : List Char) (d1 d2 : Char),
    ip ≠ [] ∧ (∀ c ∈ ip, c.isDigit = true) ∧ d1.isDigit = true ∧ d2.isDigit = true ∧
    s.data = (if neg then ['-'] else []) ++ ip ++ ['.', d1, d2]

/-- The warning that the loop pushes at one entry of the payload, if any. -/
def emit (means stds : UMap) (z_threshold : F64) (kv : String × F64) : Option String :=
  match means.find kv.1, stds.find kv.1 with
  | some mu, some sd =>
      if F64.isFinite mu && F64.isFinite sd && F64.gt sd F64.tiny
          && F64.ge (F64.fabs (zscore kv.2 mu sd)) z_threshold
      then some (warning kv.1 (zscore kv.2 mu sd) z_threshold)
      else none
  | _, _ => none

/-- A payload entry qualifies when its key has a mean and a standard deviation,
both finite, the standard deviation above `1e-12`, and `abs(z)` at or above the threshold. -/
def Qualifies (means stds : UMap) (z_threshold : F64) (key : String) (value : F64) : Prop :=
  ∃ mu sd : F64, means.find key = some mu ∧ stds.find key = some sd ∧
    F64.isFinite mu = true ∧ F64.isFinite sd = true ∧ F64.gt sd F64.tiny = true ∧
    F64.ge (F64.fabs (zscore value mu sd)) z_threshold = true

/-- The C++ unary minus on doubles: flips the sign. -/
def F64.neg : F64 → F64
  | .nan => .nan
  | .inf n => .inf (!n)
  | .fin n m e => .fin (!n) m e

/-- The largest finite double, `DBL_MAX`. -/
def F64.maxFinite : F64 := .fin false (2 ^ 53 - 1) 971

/-!
The locale of the stream

The `std::ostringstream` of `ood_warnings` is constructed with the global
`std::locale` of the process, and writes the two doubles with the decimal
point, the thousands separator and the digit grouping of that locale.  The
global locale is not an argument of `ood_warnings`: it is state of the process.
-/

/-- The decimal literals and the arithmetic agree with the binary64 encodings:
`0.5 = 0x3FE0000000000000`, `0.8 = 0x3FE999999999999A`, `100 = 0x4059000000000000`,
`1e-12 = 0x3D719799812DEA11`, `0.1 - 0.3 = 0xBFC9999999999999`,
`1 / 3 = 0x3FD5555555555555`, `(100 - 30) / 5 = 14`, `(31 - 30) / 5 = 0.2`. -/
theorem F64.arith_examples :
    F64.ofDec false 5 (-1) = .fin false (2 ^ 52) (-53) ∧
    F64.ofDec false 8 (-1) = .fin false 0x1999999999999A (-53) ∧
    F64.ofNat 100 = .fin false 0x19000000000000 (-46) ∧
    F64.tiny = .fin false 0x119799812DEA11 (-92) ∧
    F64.sub (F64.ofDec false 1 (-1)) (F64.ofDec false 3 (-1))
      = .fin true 0x19999999999999 (-55) ∧
    F64.div (F64.ofNat 1) (F64.ofNat 3) = .fin false 0x15555555555555 (-54) ∧
    F64.div (F64.sub (F64.ofNat 100) (F64.ofNat 30)) (F64.ofNat 5) = F64.ofNat 14 ∧
    F64.div (F64.sub (F64.ofNat 31) (F64.ofNat 30)) (F64.ofNat 5) = F64.ofDec false 2 (-1) ∧
    F64.sub F64.maxFinite (F64.neg F64.maxFinite) = .inf false ∧
    F64.div (F64.ofNat 1) (F64.ofNat 0) = .inf false ∧
    F64.div (F64.ofNat 0) (F64.ofNat 0) = .nan := by
  refine ⟨by decide, by decide, by decide, by decide, by decide, by decide, by decide,
    by decide, by decide, by decide, by decide⟩

/-- The texts of some doubles: ties go to the even digit, the sign bit shows
also when the rounded value is zero. -/
theorem F64.fmtFixed2_examples :
    F64.fmtFixed2 (F64.ofNat 14) = "14.00" ∧
    F64.fmtFixed2 (F64.ofDec false 314159 (-5)) = "3.14" ∧
    F64.fmtFixed2 (F64.ofDec false 125 (-3)) = "0.12" ∧
    F64.fmtFixed2 (F64.ofDec false 375 (-3)) = "0.38" ∧
    F64.fmtFixed2 (F64.ofDec false 2675 (-3)) = "2.67" ∧
    F64.fmtFixed2 (F64.ofDec true 1 (-3)) = "-0.00" ∧
    F64.fmtFixed2 (F64.ofDec false 999999 (-4)) = "100.00" ∧
    F64.fmtFixed2 (.inf false) = "inf" ∧ F64.fmtFixed2 (.inf true) = "-inf" := by
  refine ⟨by decide, by decide, by decide, by decide, by decide, by decide, by decide,
    by decide, by decide⟩

/-- The doubles of the examples below are binary64 numbers in canonical form. -/
theorem F64.valid_examples :
    F64.valid F64.maxFinite = true ∧ F64.valid (F64.neg F64.maxFinite) = true ∧
    F64.valid F64.tiny = true ∧ F64.valid (F64.ofNat 0) = true ∧
    F64.valid (F64.ofDec true 0 0) = true ∧ F64.valid (F64.ofDec true 1 0) = true ∧
    F64.valid (F64.ofNat 1) = true ∧ F64.valid (F64.ofNat 3) = true ∧
    F64.valid (F64.ofNat 5) = true ∧ F64.valid (F64.ofNat 10) = true ∧
    F64.valid (F64.ofNat 30) = true ∧ F64.valid (F64.ofNat 100) = true := by
  refine ⟨by decide, by decide, by decide, by decide, by decide, by decide, by decide,
    by decide, by decide, by decide, by decide, by decide⟩

/-!
Comparisons
-/

theorem F64.cmp_of_not_nan (a b : F64) (ha : F64.isNaN a = false) (hb : F64.isNaN b = false) :
    ∃ o, F64.cmp a b = some o := by
  cases a <;> cases b <;> simp [F64.cmp, F64.isNaN] at *

theorem F64.cmp_nan_left (b : F64) : F64.cmp .nan b = none := by
  cases b <;> rfl

theorem F64.cmp_nan_right (a : F64) : F64.cmp a .nan = none := by
  cases a <;> rfl

theorem F64.cmp_of_isNaN (a b : F64) (h : F64.isNaN a = true ∨ F64.isNaN b = true) :
    F64.cmp a b = none := by
  rcases h with h | h
  · cases a <;> simp [F64.isNaN] at h
    exact F64.cmp_nan_left b
  · cases b <;> simp [F64.isNaN] at h
    exact F64.cmp_nan_right a

theorem F64.isNaN_of_isFinite (a : F64) (h : F64.isFinite a = true) : F64.isNaN a = false := by
  cases a <;> simp [F64.isFinite, F64.isNaN] at *

theorem F64.ge_false_of_lt (a b : F64) (h : F64.lt a b = true) : F64.ge a b = false := by
  unfold F64.lt at h
  unfold F64.ge
  cases hc : F64.cmp a b with
  | none => rfl
  | some o => cases o <;> simp [hc] at h ⊢

theorem F64.gt_eq_not_le (a b : F64) (ha : F64.isNaN a = false) (hb : F64.isNaN b = false) :
    F64.gt a b = !F64.le a b := by
  obtain ⟨o, ho⟩ := F64.cmp_of_not_nan a b ha hb
  unfold F64.gt F64.le
  cases o <;> simp [ho]

theorem F64.tiny_eq : F64.tiny = .fin false 4951760157141521 (-92) := by decide

/-- The guard of the loop lets an entry through exactly when the mean and the
standard deviation are finite and the standard deviation is above `1e-12`. -/
theorem guard_false_iff (mu sd : F64) :
    (!F64.isFinite mu || !F64.isFinite sd || F64.le sd F64.tiny) = false ↔
      (F64.isFinite mu = true ∧ F64.isFinite sd = true ∧ F64.gt sd F64.tiny = true) := by
  cases hsd : F64.isFinite sd
  · simp
  · have h := F64.gt_eq_not_le sd F64.tiny (F64.isNaN_of_isFinite sd hsd) (by decide)
    rw [h]
    cases F64.isFinite mu <;> cases F64.le sd F64.tiny <;> simp

/-!
The loop as a filter and a map
-/

theorem ood_step_eq (means stds : UMap) (t : F64) (out : List String) (kv : String × F64) :
    ood_step means stds t out kv = out ++ (emit means stds t kv).toList := by
  unfold ood_step emit
  cases hm : means.find kv.1 with
  | none => simp
  | some mu =>
    cases hs : stds.find kv.1 with
    | none => simp
    | some sd =>
      simp only []
      cases hg : (!F64.isFinite mu || !F64.isFinite sd || F64.le sd F64.tiny)
      · obtain ⟨h1, h2, h3⟩ := (guard_false_iff mu sd).1 hg
        simp only [h1, h2, h3, Bool.true_and, zscore]
        cases F64.ge (F64.fabs (F64.div (F64.sub kv.2 mu) sd)) t <;> simp
      · have hn : ¬ (F64.isFinite mu = true ∧ F64.isFinite sd = true ∧ F64.gt sd F64.tiny = true) := by
          intro h
          rw [(guard_false_iff mu sd).2 h] at hg
          exact Bool.noConfusion hg
        have : (F64.isFinite mu && F64.isFinite sd && F64.gt sd F64.tiny) = false := by
          cases h1 : F64.isFinite mu <;> cases h2 : F64.isFinite sd <;>
            cases h3 : F64.gt sd F64.tiny <;> simp_all
        simp [this]

theorem foldl_ood_step (means stds : UMap) (t : F64) (l : List (String × F64))
    (out : List String) :
    l.foldl (ood_step means stds t) out = out ++ l.filterMap (emit means stds t) := by
  induction l generalizing out with
  | nil => simp
  | cons kv rest ih =>
    rw [List.foldl_cons, ih, ood_step_eq, List.filterMap_cons]
    cases emit means stds t kv <;> simp

/-- The result of `ood_warnings` is the sequence of the payload's entries, each
replaced by its warning or dropped. -/
theorem ood_warnings_eq (payload means stds : UMap) (t : F64) :
    ood_warnings payload means stds t = payload.entries.filterMap (emit means stds t) := by
  unfold ood_warnings
  rw [foldl_ood_step]
  simp

theorem emit_eq_some_iff (means stds : UMap) (t : F64) (kv : String × F64) (s : String) :
    emit means stds t kv = some s ↔
      ∃ mu sd, means.find kv.1 = some mu ∧ stds.find kv.1 = some sd ∧
        F64.isFinite mu = true ∧ F64.isFinite sd = true ∧ F64.gt sd F64.tiny = true ∧
        F64.ge (F64.fabs (zscore kv.2 mu sd)) t = true ∧ s = warning kv.1 (zscore kv.2 mu sd) t := by
  unfold emit
  cases hm : means.find kv.1 with
  | none => simp
  | some mu =>
    cases hs : stds.find kv.1 with
    | none => simp
    | some sd =>
      simp only [Option.some.injEq]
      constructor
      · intro h
        split at h
        · rename_i hc
          simp only [Bool.and_eq_true] at hc
          exact ⟨mu, sd, rfl, rfl, hc.1.1.1, hc.1.1.2, hc.1.2, hc.2, (Option.some.inj h).symm⟩
        · exact Option.noConfusion h
      · rintro ⟨mu', sd', h1, h2, h3, h4, h5, h6, h7⟩
        cases h1
        cases h2
        simp [h3, h4, h5, h6, h7]

theorem mem_ood_warnings_iff (payload means stds : UMap) (t : F64) (s : String) :
    s ∈ ood_warnings payload means stds t ↔
      ∃ kv ∈ payload.entries, emit means stds t kv = some s := by
  rw [ood_warnings_eq, List.mem_filterMap]

/-!
The text of a warning
-/

theorem digitChar_isDigit (d : Nat) (h : d < 10) : (Nat.digitChar d).isDigit = true := by
  interval_cases d <;> rfl

theorem toDigitsCore_isDigit (fuel n : Nat) (acc : List Char)
    (hacc : ∀ c ∈ acc, c.isDigit = true) :
    ∀ c ∈ Nat.toDigitsCore 10 fuel n acc, c.isDigit = true := by
  induction fuel generalizing n acc with
  | zero => simpa [Nat.toDigitsCore] using hacc
  | succ fuel ih =>
    have hd : (Nat.digitChar (n % 10)).isDigit = true :=
      digitChar_isDigit _ (Nat.mod_lt _ (by decide))
    have hacc' : ∀ c ∈ Nat.digitChar (n % 10) :: acc, c.isDigit = true := by
      intro c hc
      rcases List.mem_cons.1 hc with h | h
      · rw [h]; exact hd
      · exact hacc c h
    unfold Nat.toDigitsCore
    simp only []
    split
    · exact hacc'
    · exact ih _ _ hacc'

theorem toDigitsCore_ne_nil (fuel n : Nat) (acc : List Char) (hacc : acc ≠ []) :
    Nat.toDigitsCore 10 fuel n acc ≠ [] := by
  induction fuel generalizing n acc with
  | zero => simpa [Nat.toDigitsCore] using hacc
  | succ fuel ih =>
    unfold Nat.toDigitsCore
    simp only []
    split
    · simp
    · exact ih _ _ (by simp)

theorem repr_isDigit (n : Nat) : ∀ c ∈ (Nat.repr n).data, c.isDigit = true := by
  show ∀ c ∈ Nat.toDigitsCore 10 (n + 1) n [], c.isDigit = true
  exact toDigitsCore_isDigit _ _ _ (by simp)

theorem repr_ne_nil (n : Nat) : (Nat.repr n).data ≠ [] := by
  show Nat.toDigitsCore 10 (n + 1) n [] ≠ []
  unfold Nat.toDigitsCore
  simp only []
  split
  · simp
  · exact toDigitsCore_ne_nil _ _ _ (by simp)

theorem ne_colon_of_isDigit (c : Char) (h : c.isDigit = true) : c ≠ ':' := by
  intro hc
  rw [hc] at h
  exact absurd h (by decide)

/-- The text of a finite number: sign, digits, point, two digits. -/
theorem fmtFixed2_fin_data (neg : Bool) (m : Nat) (e : Int) :
    (F64.fmtFixed2 (.fin neg m e)).data =
      (if neg then ['-'] else []) ++
        (Nat.repr (F64.divRNE (m * 100 * 2 ^ e.toNat) (2 ^ (-e).toNat) / 100)).data ++
        ['.', Nat.digitChar (F64.divRNE (m * 100 * 2 ^ e.toNat) (2 ^ (-e).toNat) % 100 / 10),
          Nat.digitChar (F64.divRNE (m * 100 * 2 ^ e.toNat) (2 ^ (-e).toNat) % 10)] := by
  cases neg <;> simp [F64.fmtFixed2, String.data_append]

/-- A finite number is written in fixed-point notation with two decimals. -/
theorem fmtFixed2_fin_isFixed2 (neg : Bool) (m : Nat) (e : Int) :
    IsFixed2 (F64.fmtFixed2 (.fin neg m e)) := by
  refine ⟨neg, _, _, _, repr_ne_nil _, repr_isDigit _, ?_, ?_, fmtFixed2_fin_data neg m e⟩
  · exact digitChar_isDigit _ (by omega)
  · exact digitChar_isDigit _ (by omega)

theorem fmtFixed2_isFixed2 (x : F64) (h : F64.isFinite x = true) : IsFixed2 (F64.fmtFixed2 x) := by
  cases x with
  | nan => simp [F64.isFinite] at h
  | inf n => simp [F64.isFinite] at h
  | fin neg m e => exact fmtFixed2_fin_isFixed2 neg m e

/-- No text of fewer than four characters is in fixed-point notation with two decimals. -/
theorem not_isFixed2_of_length (s : String) (h : s.data.length < 4) : ¬ IsFixed2 s := by
  rintro ⟨neg, ip, d1, d2, hne, -, -, -, hs⟩
  have hl : 0 < ip.length := List.length_pos.2 hne
  rw [hs] at h
  simp only [List.length_append, List.length_cons, List.length_nil] at h
  omega

theorem not_isFixed2_inf : ¬ IsFixed2 "inf" := not_isFixed2_of_length _ (by decide)

theorem not_isFixed2_neg_inf : ¬ IsFixed2 "-inf" := by
  rintro ⟨neg, ip, d1, d2, hne, hd, -, -, hs⟩
  have hlen := congrArg List.length hs
  cases neg
  · -- without a sign the first character would be a digit
    cases ip with
    | nil => exact hne rfl
    | cons c r =>
      have hc : c = '-' := by
        have := congrArg List.head? hs
        simpa using this.symm
      have := hd c (by simp)
      rw [hc] at this
      exact absurd this (by decide)
  · have hl : 0 < ip.length := List.length_pos.2 hne
    have h4 : ("-inf" : String).data.length = 4 := by decide
    rw [h4] at hlen
    simp only [List.length_append, List.length_cons, List.length_nil, if_true] at hlen
    omega

/-- The text of a double has no colon. -/
theorem fmtFixed2_no_colon (x : F64) : ∀ c ∈ (F64.fmtFixed2 x).data, c ≠ ':' := by
  cases x with
  | nan => decide
  | inf n => cases n <;> decide
  | fin neg m e =>
    rw [fmtFixed2_fin_data]
    intro c hc
    simp only [List.mem_append, List.mem_cons, List.mem_singleton] at hc
    rcases hc with (hc | hc) | hc
    · cases neg
      · simp at hc
      · simp at hc
        rw [hc]; decide
    · exact ne_colon_of_isDigit c (repr_isDigit _ c hc)
    · rcases hc with hc | hc | hc | hc
      · rw [hc]; decide
      · rw [hc]; exact ne_colon_of_isDigit _ (digitChar_isDigit _ (by omega))
      · rw [hc]; exact ne_colon_of_isDigit _ (digitChar_isDigit _ (by omega))
      · simp at hc

theorem warning_data (key : String) (z t : F64) :
    (warning key z t).data = "ood_warning:".data ++ (key.data ++ ':' :: warningTail z t) := by
  simp [warning, warningTail, String.data_append]

theorem warningTail_no_colon (z t : F64) : ∀ c ∈ warningTail z t, c ≠ ':' := by
  intro c hc
  unfold warningTail at hc
  simp only [List.mem_append, List.mem_singleton] at hc
  rcases hc with (((hc | hc) | hc) | hc) | hc
  · revert c; decide
  · exact fmtFixed2_no_colon z c hc
  · revert c; decide
  · exact fmtFixed2_no_colon t c hc
  · rw [hc]; decide

/-- A list is cut in one way only at its last occurrence of a character. -/
theorem append_cons_inj_of_not_mem {α : Type} (x : α) (a a' b b' : List α)
    (hb : x ∉ b) (hb' : x ∉ b') (h : a ++ x :: b = a' ++ x :: b') : a = a' ∧ b = b' := by
  induction a generalizing a' with
  | nil =>
    cases a' with
    | nil => simpa using h
    | cons y r =>
      simp only [List.nil_append, List.cons_append, List.cons.injEq] at h
      exact absurd (h.2 ▸ (by simp : x ∈ r ++ x :: b')) hb
  | cons y r ih =>
    cases a' with
    | nil =>
      simp only [List.nil_append, List.cons_append, List.cons.injEq] at h
      exact absurd (h.2 ▸ (by simp : x ∈ r ++ x :: b)) hb'
    | cons y' r' =>
      simp only [List.cons_append, List.cons.injEq] at h
      obtain ⟨h1, h2⟩ := ih r' h.2
      exact ⟨by rw [h.1, h1], h2⟩

/-- The key of a warning can be read back from its text. -/
theorem warning_key_inj (k k' : String) (z z' t t' : F64)
    (h : warning k z t = warning k' z' t') : k = k' := by
  have hd := congrArg String.data h
  rw [warning_data, warning_data] at hd
  have hd' := List.append_cancel_left hd
  have := append_cons_inj_of_not_mem ':' k.data k'.data _ _
    (fun hm => warningTail_no_colon z t _ hm rfl)
    (fun hm => warningTail_no_colon z' t' _ hm rfl) hd'
  exact String.ext this.1

theorem isWarningFor_warning (k k' : String) (z t : F64) :
    IsWarningFor k' (warning k z t) ↔ k' = k := by
  constructor
  · rintro ⟨z', t', h⟩
    exact (warning_key_inj k k' z z' t t' h).symm
  · rintro rfl
    exact ⟨z, t, rfl⟩

/-!
Warnings and keys
-/

/-- A warning for `key` in the result comes from the entry of `key` in the
payload, and that entry passed every test of the loop. -/
theorem mem_ood_warnings_key (payload means stds : UMap) (t : F64) (key s : String)
    (hs : s ∈ ood_warnings payload means stds t) (hk : IsWarningFor key s) :
    ∃ value mu sd, (key, value) ∈ payload.entries ∧ means.find key = some mu ∧
      stds.find key = some sd ∧ F64.isFinite mu = true ∧ F64.isFinite sd = true ∧
      F64.gt sd F64.tiny = true ∧ F64.ge (F64.fabs (zscore value mu sd)) t = true ∧
      s = warning key (zscore value mu sd) t := by
  obtain ⟨kv, hmem, hemit⟩ := (mem_ood_warnings_iff payload means stds t s).1 hs
  obtain ⟨mu, sd, h1, h2, h3, h4, h5, h6, h7⟩ := (emit_eq_some_iff means stds t kv s).1 hemit
  have hkey : key = kv.1 := by
    rw [h7] at hk
    exact (isWarningFor_warning kv.1 key _ _).1 hk
  obtain ⟨k, v⟩ := kv
  simp only at hkey h1 h2 h6 h7
  subst hkey
  exact ⟨v, mu, sd, hmem, h1, h2, h3, h4, h5, h6, h7⟩

/-- An entry that passes every test of the loop has its warning in the result. -/
theorem warning_mem_ood_warnings (payload means stds : UMap) (t : F64) (key : String)
    (value mu sd : F64) (hp : (key, value) ∈ payload.entries)
    (hm : means.find key = some mu) (hs : stds.find key = some sd)
    (hfm : F64.isFinite mu = true) (hfs : F64.isFinite sd = true)
    (hgt : F64.gt sd F64.tiny = true)
    (hz : F64.ge (F64.fabs (zscore value mu sd)) t = true) :
    warning key (zscore value mu sd) t ∈ ood_warnings payload means stds t := by
  rw [mem_ood_warnings_iff]
  exact ⟨(key, value), hp, (emit_eq_some_iff means stds t (key, value) _).2
    ⟨mu, sd, hm, hs, hfm, hfs, hgt, hz, rfl⟩⟩

/-- In a list of entries with distinct keys a key has one value. -/
theorem value_unique (l : List (String × F64)) (hnd : (l.map Prod.fst).Nodup)
    (k : String) (v v' : F64) (h : (k, v) ∈ l) (h' : (k, v') ∈ l) : v = v' := by
  induction l with
  | nil => simp at h
  | cons a r ih =>
    simp only [List.map_cons, List.nodup_cons, List.mem_map, not_exists, not_and] at hnd
    rcases List.mem_cons.1 h with h1 | h1 <;> rcases List.mem_cons.1 h' with h2 | h2
    · rw [← h2] at h1
      exact (Prod.mk.inj h1).2
    · exact absurd (by rw [← h1]) (hnd.1 (k, v') h2)
    · exact absurd (by rw [← h2]) (hnd.1 (k, v) h1)
    · exact ih hnd.2 h1 h2

/-- Over entries with distinct keys, a text that only one key can produce is produced once. -/
theorem count_filterMap_unique (f : String × F64 → Option String)
    (l : List (String × F64)) (hnd : (l.map Prod.fst).Nodup) (kv : String × F64)
    (hkv : kv ∈ l) (w : String) (hf : f kv = some w)
    (hinj : ∀ kv' ∈ l, f kv' = some w → kv'.1 = kv.1) : (l.filterMap f).count w = 1 := by
  induction l with
  | nil => simp at hkv
  | cons a r ih =>
    simp only [List.map_cons, List.nodup_cons, List.mem_map, not_exists, not_and] at hnd
    rcases List.mem_cons.1 hkv with h | h
    · subst h
      have hnot : w ∉ r.filterMap f := by
        intro hw
        obtain ⟨kv', hmem, hfw⟩ := List.mem_filterMap.1 hw
        exact hnd.1 kv' hmem (hinj kv' (List.mem_cons_of_mem _ hmem) hfw)
      rw [List.filterMap_cons, hf, List.count_cons_self, List.count_eq_zero.2 hnot]
    · have hne : f a ≠ some w := by
        intro hfa
        have := hinj a (List.mem_cons_self _ _) hfa
        exact hnd.1 kv h this.symm
      have ih' := ih hnd.2 h (fun kv' hm hfw => hinj kv' (List.mem_cons_of_mem _ hm) hfw)
      rw [List.filterMap_cons]
      cases hfa : f a with
      | none => simpa using ih'
      | some s' =>
        have : s' ≠ w := fun hsw => hne (by rw [hfa, hsw])
        simp only []
        rw [List.count_cons_of_ne this.symm]
        exact ih'

/-- The text of a double that is not a NaN: two decimals, or an infinity. -/
theorem fmtFixed2_cases (x : F64) (h : F64.isNaN x = false) :
    (F64.isFinite x = true ∧ IsFixed2 (F64.fmtFixed2 x)) ∨
      (x = .inf false ∧ F64.fmtFixed2 x = "inf") ∨ (x = .inf true ∧ F64.fmtFixed2 x = "-inf") := by
  cases x with
  | nan => simp [F64.isNaN] at h
  | inf n => cases n <;> simp [F64.fmtFixed2]
  | fin neg m e => exact Or.inl ⟨rfl, fmtFixed2_fin_isFixed2 neg m e⟩

theorem F64.not_nan_of_ge (a b : F64) (h : F64.ge a b = true) :
    F64.isNaN a = false ∧ F64.isNaN b = false := by
  cases a <;> cases b <;> simp [F64.ge, F64.cmp, F64.isNaN] at *

theorem F64.isNaN_fabs (a : F64) : F64.isNaN (F64.fabs a) = F64.isNaN a := by
  cases a <;> rfl

/-!
The label
-/

/-- C1: `label_from_threshold(prob, threshold)` is `"high_risk"` when
`prob >= threshold`, `"low_risk"` when `prob < threshold`, and never another text. -/
theorem label_from_threshold_spec (prob threshold : F64) :
    (F64.ge prob threshold = true → label_from_threshold prob threshold = "high_risk") ∧
    (F64.lt prob threshold = true → label_from_threshold prob threshold = "low_risk") ∧
    (label_from_threshold prob threshold = "high_risk" ∨
      label_from_threshold prob threshold = "low_risk") := by
  unfold label_from_threshold
  refine ⟨fun h => by simp [h], fun h => by simp [F64.ge_false_of_lt _ _ h], ?_⟩
  cases F64.ge prob threshold <;> simp

/-- The label at `(0.5, 0.5)` and `(0.8, 0.5)` is `"high_risk"`, at `(0.2, 0.5)` it is `"low_risk"`. -/
theorem label_from_threshold_spec_witness :
    F64.ge (F64.ofDec false 5 (-1)) (F64.ofDec false 5 (-1)) = true ∧
    label_from_threshold (F64.ofDec false 5 (-1)) (F64.ofDec false 5 (-1)) = "high_risk" ∧
    F64.ge (F64.ofDec false 8 (-1)) (F64.ofDec false 5 (-1)) = true ∧
    label_from_threshold (F64.ofDec false 8 (-1)) (F64.ofDec false 5 (-1)) = "high_risk" ∧
    F64.lt (F64.ofDec false 2 (-1)) (F64.ofDec false 5 (-1)) = true ∧
    label_from_threshold (F64.ofDec false 2 (-1)) (F64.ofDec false 5 (-1)) = "low_risk" :=
  ⟨by decide,
    (label_from_threshold_spec (F64.ofDec false 5 (-1)) (F64.ofDec false 5 (-1))).1 (by decide),
    by decide,
    (label_from_threshold_spec (F64.ofDec false 8 (-1)) (F64.ofDec false 5 (-1))).1 (by decide),
    by decide,
    (label_from_threshold_spec (F64.ofDec false 2 (-1)) (F64.ofDec false 5 (-1))).2.1 (by decide)⟩

/-!
The warnings
-/

/-- C2, as stated, fails: with the payload `x = DBL_MAX`, the mean `-DBL_MAX`,
the standard deviation `1` and the threshold `3` (all finite, the entry passes
every test), `value - mean` overflows, the z-score is `+inf`, and the one
warning of the result writes it `inf`: the result has no warning for `x` whose
z-score is in fixed-point notation with two decimals. -/
theorem ood_warnings_fixed2_counterexample :
    ("x", F64.maxFinite) ∈ (UMap.single "x" F64.maxFinite).entries ∧
    (UMap.single "x" (F64.neg F64.maxFinite)).find "x" = some (F64.neg F64.maxFinite) ∧
    (UMap.single "x" (F64.ofNat 1)).find "x" = some (F64.ofNat 1) ∧
    F64.isFinite (F64.neg F64.maxFinite) = true ∧ F64.isFinite (F64.ofNat 1) = true ∧
    F64.gt (F64.ofNat 1) F64.tiny = true ∧
    F64.ge (F64.fabs (zscore F64.maxFinite (F64.neg F64.maxFinite) (F64.ofNat 1)))
      (F64.ofNat 3) = true ∧
    ood_warnings (UMap.single "x" F64.maxFinite) (UMap.single "x" (F64.neg F64.maxFinite))
      (UMap.single "x" (F64.ofNat 1)) (F64.ofNat 3) = ["ood_warning:x:z=inf (threshold=3.00)"] ∧
    ¬ ∃ f g : String, IsFixed2 f ∧
      ("ood_warning:" ++ "x" ++ ":z=" ++ f ++ " (threshold=" ++ g ++ ")") ∈
        ood_warnings (UMap.single "x" F64.maxFinite) (UMap.single "x" (F64.neg F64.maxFinite))
          (UMap.single "x" (F64.ofNat 1)) (F64.ofNat 3) := by
  have hout : ood_warnings (UMap.single "x" F64.maxFinite)
      (UMap.single "x" (F64.neg F64.maxFinite)) (UMap.single "x" (F64.ofNat 1)) (F64.ofNat 3)
      = ["ood_warning:x:z=inf (threshold=3.00)"] := by decide
  refine ⟨by decide, by decide, by decide, by decide, by decide, by decide, by decide, hout, ?_⟩
  rintro ⟨f, g, ⟨neg, ip, d1, d2, hne, hd, -, -, hf⟩, hmem⟩
  rw [hout, List.mem_singleton] at hmem
  have h := congrArg String.data hmem
  simp only [String.data_append] at h
  have h' : "ood_warning:x:z=".data ++ (f.data ++ (" (threshold=".data ++ (g.data ++ ")".data)))
      = "ood_warning:x:z=".data ++ "inf (threshold=3.00)".data := by
    simpa using h
  have h'' := congrArg List.head? (List.append_cancel_left h')
  rw [hf] at h''
  cases ip with
  | nil => exact hne rfl
  | cons c r =>
    cases neg
    · have hc : c = 'i' := by simpa using h''
      have := hd c (by simp)
      rw [hc] at this
      exact absurd this (by decide)
    · simp at h''

/-- C2, amended: an entry whose key has a finite mean and a finite standard
deviation above `1e-12`, and whose `abs(z)` is at or above the threshold, has
its warning `ood_warning:<key>:z=<z> (threshold=<z_threshold>)` exactly once in
the result, and the result has no other warning for that key; `z` and the
threshold are never NaN there, a finite one is written in fixed-point notation
with two decimals, an infinite one `inf` or `-inf`. -/
theorem ood_warnings_emits_once (payload means stds : UMap) (z_threshold : F64)
    (key : String) (value mu sd : F64)
    (hp : (key, value) ∈ payload.entries)
    (hm : means.find key = some mu) (hs : stds.find key = some sd)
    (hfm : F64.isFinite mu = true) (hfs : F64.isFinite sd = true)
    (hgt : F64.gt sd F64.tiny = true)
    (hz : F64.ge (F64.fabs (zscore value mu sd)) z_threshold = true) :
    (ood_warnings payload means stds z_threshold).count
        ("ood_warning:" ++ key ++ ":z=" ++ F64.fmtFixed2 (zscore value mu sd) ++ " (threshold="
          ++ F64.fmtFixed2 z_threshold ++ ")") = 1 ∧
    (∀ s ∈ ood_warnings payload means stds z_threshold, IsWarningFor key s →
        s = "ood_warning:" ++ key ++ ":z=" ++ F64.fmtFixed2 (zscore value mu sd) ++ " (threshold="
          ++ F64.fmtFixed2 z_threshold ++ ")") ∧
    ((F64.isFinite (zscore value mu sd) = true ∧ IsFixed2 (F64.fmtFixed2 (zscore value mu sd))) ∨
      (zscore value mu sd = .inf false ∧ F64.fmtFixed2 (zscore value mu sd) = "inf") ∨
      (zscore value mu sd = .inf true ∧ F64.fmtFixed2 (zscore value mu sd) = "-inf")) ∧
    ((F64.isFinite z_threshold = true ∧ IsFixed2 (F64.fmtFixed2 z_threshold)) ∨
      (z_threshold = .inf false ∧ F64.fmtFixed2 z_threshold = "inf") ∨
      (z_threshold = .inf true ∧ F64.fmtFixed2 z_threshold = "-inf")) := by
  have hnan := F64.not_nan_of_ge _ _ hz
  rw [F64.isNaN_fabs] at hnan
  refine ⟨?_, ?_, fmtFixed2_cases _ hnan.1, fmtFixed2_cases _ hnan.2⟩
  · show (ood_warnings payload means stds z_threshold).count
      (warning key (zscore value mu sd) z_threshold) = 1
    rw [ood_warnings_eq]
    refine count_filterMap_unique _ _ payload.nodup (key, value) hp _
      ((emit_eq_some_iff means stds z_threshold (key, value) _).2
        ⟨mu, sd, hm, hs, hfm, hfs, hgt, hz, rfl⟩) ?_
    intro kv' _ hemit
    obtain ⟨mu', sd', -, -, -, -, -, -, h7⟩ := (emit_eq_some_iff means stds z_threshold kv' _).1 hemit
    exact (warning_key_inj _ _ _ _ _ _ h7).symm
  · intro s hmem hk
    obtain ⟨v', mu', sd', hp', hm', hs', -, -, -, -, hs''⟩ :=
      mem_ood_warnings_key payload means stds z_threshold key s hmem hk
    have hv : v' = value := value_unique _ payload.nodup key v' value hp' hp
    rw [hm] at hm'
    rw [hs] at hs'
    cases hm'
    cases hs'
    rw [hs'', hv]
    rfl

/-- The example of the specification: the payload `age = 100` with mean 30 and
standard deviation 5 at the threshold 3 gives one warning, with `z=14.00`. -/
theorem ood_warnings_emits_once_witness :
    ood_warnings (UMap.single "age" (F64.ofNat 100)) (UMap.single "age" (F64.ofNat 30))
      (UMap.single "age" (F64.ofNat 5)) (F64.ofNat 3)
      = ["ood_warning:age:z=14.00 (threshold=3.00)"] ∧
    (ood_warnings (UMap.single "age" (F64.ofNat 100)) (UMap.single "age" (F64.ofNat 30))
      (UMap.single "age" (F64.ofNat 5)) (F64.ofNat 3)).count
        "ood_warning:age:z=14.00 (threshold=3.00)" = 1 :=
  ⟨by decide,
    (ood_warnings_emits_once (UMap.single "age" (F64.ofNat 100))
      (UMap.single "age" (F64.ofNat 30)) (UMap.single "age" (F64.ofNat 5)) (F64.ofNat 3)
      "age" (F64.ofNat 100) (F64.ofNat 30) (F64.ofNat 5)
      (by decide) (by decide) (by decide) (by decide) (by decide) (by decide) (by decide)).1⟩

/-- C3, as stated, fails: with the payload `x = 10`, the mean `0`, the standard
deviation `-1` and the threshold `3`, the key has a mean and a standard
deviation and `abs((10 - 0) / -1) = 10 >= 3`, yet the result is empty: the
loop skips a standard deviation at or below `1e-12`. -/
theorem ood_warnings_unguarded_counterexample :
    ("x", F64.ofNat 10) ∈ (UMap.single "x" (F64.ofNat 10)).entries ∧
    (UMap.single "x" (F64.ofNat 0)).find "x" = some (F64.ofNat 0) ∧
    (UMap.single "x" (F64.ofDec true 1 0)).find "x" = some (F64.ofDec true 1 0) ∧
    F64.ge (F64.fabs (zscore (F64.ofNat 10) (F64.ofNat 0) (F64.ofDec true 1 0)))
      (F64.ofNat 3) = true ∧
    F64.fmtFixed2 (zscore (F64.ofNat 10) (F64.ofNat 0) (F64.ofDec true 1 0)) = "-10.00" ∧
    ood_warnings (UMap.single "x" (F64.ofNat 10)) (UMap.single "x" (F64.ofNat 0))
      (UMap.single "x" (F64.ofDec true 1 0)) (F64.ofNat 3) = [] := by
  refine ⟨by decide, by decide, by decide, by decide!, by decide!, by decide!⟩

/-- C3, amended: for an entry whose key has a mean and a standard deviation,
both finite and the standard deviation above `1e-12`, if `abs(z)` is at or
above the threshold then the result has the warning
`ood_warning:<key>:z=<z> (threshold=<z_threshold>)` of that key, where a finite
`z` or threshold is written with two decimals and an infinite one `inf` or `-inf`. -/
theorem ood_warnings_emits (payload means stds : UMap) (z_threshold : F64)
    (key : String) (value mu sd : F64)
    (hp : (key, value) ∈ payload.entries)
    (hm : means.find key = some mu) (hs : stds.find key = some sd)
    (hfm : F64.isFinite mu = true) (hfs : F64.isFinite sd = true)
    (hgt : F64.gt sd F64.tiny = true)
    (hz : F64.ge (F64.fabs (zscore value mu sd)) z_threshold = true) :
    ("ood_warning:" ++ key ++ ":z=" ++ F64.fmtFixed2 (zscore value mu sd) ++ " (threshold="
        ++ F64.fmtFixed2 z_threshold ++ ")") ∈ ood_warnings payload means stds z_threshold ∧
    (F64.isFinite (zscore value mu sd) = true → IsFixed2 (F64.fmtFixed2 (zscore value mu sd))) ∧
    (F64.isFinite z_threshold = true → IsFixed2 (F64.fmtFixed2 z_threshold)) ∧
    (∀ n, zscore value mu sd = .inf n →
      F64.fmtFixed2 (zscore value mu sd) = if n then "-inf" else "inf") ∧
    (∀ n, z_threshold = .inf n → F64.fmtFixed2 z_threshold = if n then "-inf" else "inf") := by
  refine ⟨warning_mem_ood_warnings payload means stds z_threshold key value mu sd
    hp hm hs hfm hfs hgt hz, fmtFixed2_isFixed2 _, fmtFixed2_isFixed2 _, ?_, ?_⟩
  · intro n h
    rw [h]
    rfl
  · intro n h
    rw [h]
    rfl

/-- A payload of two entries, the second one two standard deviations below its
mean, at the threshold 2: the entry at the boundary has its warning. -/
theorem ood_warnings_emits_witness :
    ood_warnings
      (UMap.pair "age" (F64.ofNat 31) "height" (F64.ofNat 150) (by decide))
      (UMap.pair "height" (F64.ofNat 170) "age" (F64.ofNat 30) (by decide))
      (UMap.pair "age" (F64.ofNat 5) "height" (F64.ofNat 10) (by decide))
      (F64.ofNat 2) = ["ood_warning:height:z=-2.00 (threshold=2.00)"] ∧
    "ood_warning:height:z=-2.00 (threshold=2.00)" ∈ ood_warnings
      (UMap.pair "age" (F64.ofNat 31) "height" (F64.ofNat 150) (by decide))
      (UMap.pair "height" (F64.ofNat 170) "age" (F64.ofNat 30) (by decide))
      (UMap.pair "age" (F64.ofNat 5) "height" (F64.ofNat 10) (by decide))
      (F64.ofNat 2) :=
  ⟨by decide,
    (ood_warnings_emits
      (UMap.pair "age" (F64.ofNat 31) "height" (F64.ofNat 150) (by decide))
      (UMap.pair "height" (F64.ofNat 170) "age" (F64.ofNat 30) (by decide))
      (UMap.pair "age" (F64.ofNat 5) "height" (F64.ofNat 10) (by decide))
      (F64.ofNat 2) "height" (F64.ofNat 150) (F64.ofNat 170) (F64.ofNat 10)
      (by decide) (by decide) (by decide) (by decide) (by decide) (by decide) (by decide)).1⟩

theorem F64.gt_false_of_le (a b : F64) (h : F64.le a b = true) : F64.gt a b = false := by
  unfold F64.le at h
  unfold F64.gt
  cases hc : F64.cmp a b with
  | none => rfl
  | some o => cases o <;> simp [hc] at h ⊢

/-- C4: a key that has no entry in `means` or no entry in `stds` has no warning
in the result of `ood_warnings`, whatever its value in the payload. -/
theorem ood_warnings_missing_stats (payload means stds : UMap) (z_threshold : F64)
    (key : String) (h : means.find key = none ∨ stds.find key = none) :
    ∀ s ∈ ood_warnings payload means stds z_threshold, ¬ IsWarningFor key s := by
  intro s hs hk
  obtain ⟨v, mu, sd, -, hm, hsd, -⟩ :=
    mem_ood_warnings_key payload means stds z_threshold key s hs hk
  rcases h with h | h
  · rw [h] at hm
    exact Option.noConfusion hm
  · rw [h] at hsd
    exact Option.noConfusion hsd

/-- The example of the specification (`x = 5` with empty statistics gives the
empty list), and a payload where only `x` lacks statistics: the result has the
warning of `age` and none for `x`. -/
theorem ood_warnings_missing_stats_witness :
    ood_warnings (UMap.single "x" (F64.ofNat 5)) UMap.empty UMap.empty (F64.ofNat 1) = [] ∧
    ood_warnings (UMap.pair "x" (F64.ofNat 5) "age" (F64.ofNat 100) (by decide))
      (UMap.single "age" (F64.ofNat 30)) (UMap.single "age" (F64.ofNat 5)) (F64.ofNat 1)
      = ["ood_warning:age:z=14.00 (threshold=1.00)"] ∧
    (∀ s ∈ ood_warnings (UMap.pair "x" (F64.ofNat 5) "age" (F64.ofNat 100) (by decide))
      (UMap.single "age" (F64.ofNat 30)) (UMap.single "age" (F64.ofNat 5)) (F64.ofNat 1),
      ¬ IsWarningFor "x" s) :=
  ⟨by decide, by decide,
    ood_warnings_missing_stats (UMap.pair "x" (F64.ofNat 5) "age" (F64.ofNat 100) (by decide))
      (UMap.single "age" (F64.ofNat 30)) (UMap.single "age" (F64.ofNat 5)) (F64.ofNat 1)
      "x" (Or.inl (by decide))⟩

/-- C5: a key whose standard deviation is at or below `1e-12` (zero and the
negative numbers included) has no warning in the result of `ood_warnings`,
whatever its value, its mean and the threshold. -/
theorem ood_warnings_small_std (payload means stds : UMap) (z_threshold : F64)
    (key : String) (sd : F64) (hsd : stds.find key = some sd)
    (hle : F64.le sd F64.tiny = true) :
    ∀ s ∈ ood_warnings payload means stds z_threshold, ¬ IsWarningFor key s := by
  intro s hs hk
  obtain ⟨v, mu, sd', -, -, hsd', -, -, hgt, -⟩ :=
    mem_ood_warnings_key payload means stds z_threshold key s hs hk
  rw [hsd] at hsd'
  cases hsd'
  rw [F64.gt_false_of_le _ _ hle] at hgt
  exact Bool.noConfusion hgt

/-- Standard deviations `1e-12`, `0`, `-0.0`, `-1` and `-inf`: no warning for `x = 100`
with mean 0, even at the threshold 0. -/
theorem ood_warnings_small_std_witness :
    F64.le F64.tiny F64.tiny = true ∧
    (∀ s ∈ ood_warnings (UMap.single "x" (F64.ofNat 100)) (UMap.single "x" (F64.ofNat 0))
      (UMap.single "x" F64.tiny) (F64.ofNat 0), ¬ IsWarningFor "x" s) ∧
    ood_warnings (UMap.single "x" (F64.ofNat 100)) (UMap.single "x" (F64.ofNat 0))
      (UMap.single "x" F64.tiny) (F64.ofNat 0) = [] ∧
    ood_warnings (UMap.single "x" (F64.ofNat 100)) (UMap.single "x" (F64.ofNat 0))
      (UMap.single "x" (F64.ofNat 0)) (F64.ofNat 0) = [] ∧
    ood_warnings (UMap.single "x" (F64.ofNat 100)) (UMap.single "x" (F64.ofNat 0))
      (UMap.single "x" (F64.ofDec true 0 0)) (F64.ofNat 0) = [] ∧
    ood_warnings (UMap.single "x" (F64.ofNat 100)) (UMap.single "x" (F64.ofNat 0))
      (UMap.single "x" (F64.ofDec true 1 0)) (F64.ofNat 0) = [] ∧
    ood_warnings (UMap.single "x" (F64.ofNat 100)) (UMap.single "x" (F64.ofNat 0))
      (UMap.single "x" (.inf true)) (F64.ofNat 0) = [] :=
  ⟨by decide,
    ood_warnings_small_std (UMap.single "x" (F64.ofNat 100)) (UMap.single "x" (F64.ofNat 0))
      (UMap.single "x" F64.tiny) (F64.ofNat 0) "x" F64.tiny (by decide) (by decide),
    by decide!, by decide!, by decide!, by decide!, by decide!⟩

/-- C6: a key whose mean is not finite (NaN or an infinity) or whose standard
deviation is not finite has no warning in the result of `ood_warnings`. -/
theorem ood_warnings_non_finite_stats (payload means stds : UMap) (z_threshold : F64)
    (key : String)
    (h : (∃ mu, means.find key = some mu ∧ F64.isFinite mu = false) ∨
      (∃ sd, stds.find key = some sd ∧ F64.isFinite sd = false)) :
    ∀ s ∈ ood_warnings payload means stds z_threshold, ¬ IsWarningFor key s := by
  intro s hs hk
  obtain ⟨v, mu, sd, -, hm, hsd, hfm, hfs, -⟩ :=
    mem_ood_warnings_key payload means stds z_threshold key s hs hk
  rcases h with ⟨mu', h1, h2⟩ | ⟨sd', h1, h2⟩
  · rw [hm] at h1
    cases h1
    rw [hfm] at h2
    exact Bool.noConfusion h2
  · rw [hsd] at h1
    cases h1
    rw [hfs] at h2
    exact Bool.noConfusion h2

/-- A mean `+inf`, `-inf` or NaN, or a standard deviation `+inf` or NaN: no warning for
`x = 100`, even at the threshold 0. -/
theorem ood_warnings_non_finite_stats_witness :
    (∀ s ∈ ood_warnings (UMap.single "x" (F64.ofNat 100)) (UMap.single "x" (.inf false))
      (UMap.single "x" (F64.ofNat 1)) (F64.ofNat 0), ¬ IsWarningFor "x" s) ∧
    ood_warnings (UMap.single "x" (F64.ofNat 100)) (UMap.single "x" (.inf false))
      (UMap.single "x" (F64.ofNat 1)) (F64.ofNat 0) = [] ∧
    ood_warnings (UMap.single "x" (F64.ofNat 100)) (UMap.single "x" (.inf true))
      (UMap.single "x" (F64.ofNat 1)) (F64.ofNat 0) = [] ∧
    ood_warnings (UMap.single "x" (F64.ofNat 100)) (UMap.single "x" .nan)
      (UMap.single "x" (F64.ofNat 1)) (F64.ofNat 0) = [] ∧
    ood_warnings (UMap.single "x" (F64.ofNat 100)) (UMap.single "x" (F64.ofNat 0))
      (UMap.single "x" (.inf false)) (F64.ofNat 0) = [] ∧
    ood_warnings (UMap.single "x" (F64.ofNat 100)) (UMap.single "x" (F64.ofNat 0))
      (UMap.single "x" .nan) (F64.ofNat 0) = [] :=
  ⟨ood_warnings_non_finite_stats (UMap.single "x" (F64.ofNat 100))
      (UMap.single "x" (.inf false)) (UMap.single "x" (F64.ofNat 1)) (F64.ofNat 0) "x"
      (Or.inl ⟨.inf false, by decide, by decide⟩),
    by decide, by decide, by decide, by decide, by decide⟩

/-- C7: a warning for a key is in the result of `ood_warnings` only if the key
is in the payload, has a mean and a standard deviation, both finite, the
standard deviation above `1e-12`, and `abs(z)` at or above the threshold; a key
whose `abs(z)` is strictly below the threshold has no warning in the result. -/
theorem ood_warnings_only_if (payload means stds : UMap) (z_threshold : F64) (key : String) :
    (∀ s ∈ ood_warnings payload means stds z_threshold, IsWarningFor key s →
      ∃ value, (key, value) ∈ payload.entries ∧ Qualifies means stds z_threshold key value) ∧
    (∀ value mu sd, (key, value) ∈ payload.entries → means.find key = some mu →
      stds.find key = some sd → F64.lt (F64.fabs (zscore value mu sd)) z_threshold = true →
      ∀ s ∈ ood_warnings payload means stds z_threshold, ¬ IsWarningFor key s) := by
  constructor
  · intro s hs hk
    obtain ⟨v, mu, sd, hp, hm, hsd, hfm, hfs, hgt, hz, -⟩ :=
      mem_ood_warnings_key payload means stds z_threshold key s hs hk
    exact ⟨v, hp, mu, sd, hm, hsd, hfm, hfs, hgt, hz⟩
  · intro value mu sd hp hm hsd hlt s hs hk
    obtain ⟨v, mu', sd', hp', hm', hsd', -, -, -, hz, -⟩ :=
      mem_ood_warnings_key payload means stds z_threshold key s hs hk
    have hv : v = value := value_unique _ payload.nodup key v value hp' hp
    rw [hm] at hm'
    rw [hsd] at hsd'
    cases hm'
    cases hsd'
    rw [hv, F64.ge_false_of_lt _ _ hlt] at hz
    exact Bool.noConfusion hz

/-- The example of the specification (`age = 31`, `z = 0.20`, threshold 3: the
empty list), and both halves of the property at `age = 100` and at `age = 31`. -/
theorem ood_warnings_only_if_witness :
    ood_warnings (UMap.single "age" (F64.ofNat 31)) (UMap.single "age" (F64.ofNat 30))
      (UMap.single "age" (F64.ofNat 5)) (F64.ofNat 3) = [] ∧
    F64.fmtFixed2 (zscore (F64.ofNat 31) (F64.ofNat 30) (F64.ofNat 5)) = "0.20" ∧
    (∃ value, ("age", value) ∈ (UMap.single "age" (F64.ofNat 100)).entries ∧
      Qualifies (UMap.single "age" (F64.ofNat 30)) (UMap.single "age" (F64.ofNat 5))
        (F64.ofNat 3) "age" value) ∧
    (∀ s ∈ ood_warnings (UMap.single "age" (F64.ofNat 31)) (UMap.single "age" (F64.ofNat 30))
      (UMap.single "age" (F64.ofNat 5)) (F64.ofNat 3), ¬ IsWarningFor "age" s) :=
  ⟨by decide, by decide,
    (ood_warnings_only_if (UMap.single "age" (F64.ofNat 100)) (UMap.single "age" (F64.ofNat 30))
      (UMap.single "age" (F64.ofNat 5)) (F64.ofNat 3) "age").1
      "ood_warning:age:z=14.00 (threshold=3.00)" (by decide)
      ⟨zscore (F64.ofNat 100) (F64.ofNat 30) (F64.ofNat 5), F64.ofNat 3, by decide⟩,
    (ood_warnings_only_if (UMap.single "age" (F64.ofNat 31)) (UMap.single "age" (F64.ofNat 30))
      (UMap.single "age" (F64.ofNat 5)) (F64.ofNat 3) "age").2
      (F64.ofNat 31) (F64.ofNat 30) (F64.ofNat 5) (by decide) (by decide) (by decide) (by decide)⟩

theorem isWarningFor_of_emit (means stds : UMap) (t : F64) (kv : String × F64) (s : String)
    (h : emit means stds t kv = some s) : IsWarningFor kv.1 s := by
  obtain ⟨mu, sd, -, -, -, -, -, -, h7⟩ := (emit_eq_some_iff means stds t kv s).1 h
  exact ⟨_, _, h7⟩

theorem emit_isSome_iff (means stds : UMap) (t : F64) (kv : String × F64) :
    (emit means stds t kv).isSome = true ↔ Qualifies means stds t kv.1 kv.2 := by
  rw [Option.isSome_iff_exists]
  constructor
  · rintro ⟨s, hs⟩
    obtain ⟨mu, sd, h1, h2, h3, h4, h5, h6, -⟩ := (emit_eq_some_iff means stds t kv s).1 hs
    exact ⟨mu, sd, h1, h2, h3, h4, h5, h6⟩
  · rintro ⟨mu, sd, h1, h2, h3, h4, h5, h6⟩
    exact ⟨_, (emit_eq_some_iff means stds t kv _).2 ⟨mu, sd, h1, h2, h3, h4, h5, h6, rfl⟩⟩

/-- The warnings of a list of entries line up, one to one and in order, with the
keys of the entries that have a warning. -/
theorem forall₂_keys_filterMap (means stds : UMap) (t : F64) (l : List (String × F64)) :
    List.Forall₂ IsWarningFor
      ((l.filter (fun kv => (emit means stds t kv).isSome)).map Prod.fst)
      (l.filterMap (emit means stds t)) := by
  induction l with
  | nil => simp
  | cons a r ih =>
    cases h : emit means stds t a with
    | none => simpa [List.filter_cons, List.filterMap_cons, h] using ih
    | some s =>
      simp only [List.filter_cons, List.filterMap_cons, h, Option.isSome_some, if_true,
        List.map_cons]
      exact List.Forall₂.cons (isWarningFor_of_emit means stds t a s h) ih

/-- C8: the result of `ood_warnings` is the sequence of the payload's entries
filtered and mapped, with no reordering: the keys `ks` of the qualifying
entries, in the iteration order of the payload, line up one to one and in order
with the warnings; each qualifying key has exactly one warning, no other key
has one, and the length of the result is the number of qualifying keys, at
most the number of entries of the payload. -/
theorem ood_warnings_order (payload means stds : UMap) (z_threshold : F64) :
    ood_warnings payload means stds z_threshold
      = payload.entries.filterMap (emit means stds z_threshold) ∧
    ∃ ks : List String,
      ks.Sublist (payload.entries.map Prod.fst) ∧
      (∀ k, k ∈ ks ↔ ∃ v, (k, v) ∈ payload.entries ∧ Qualifies means stds z_threshold k v) ∧
      List.Forall₂ IsWarningFor ks (ood_warnings payload means stds z_threshold) ∧
      (∀ k ∈ ks, ∃ s, IsWarningFor k s ∧
        (ood_warnings payload means stds z_threshold).count s = 1 ∧
        ∀ s' ∈ ood_warnings payload means stds z_threshold, IsWarningFor k s' → s' = s) ∧
      (∀ s ∈ ood_warnings payload means stds z_threshold, ∀ k, IsWarningFor k s → k ∈ ks) ∧
      (ood_warnings payload means stds z_threshold).length = ks.length ∧
      (ood_warnings payload means stds z_threshold).length ≤ payload.entries.length := by
  have heq := ood_warnings_eq payload means stds z_threshold
  have hmem : ∀ k, k ∈ (payload.entries.filter
      (fun kv => (emit means stds z_threshold kv).isSome)).map Prod.fst ↔
      ∃ v, (k, v) ∈ payload.entries ∧ Qualifies means stds z_threshold k v := by
    intro k
    simp only [List.mem_map, List.mem_filter]
    constructor
    · rintro ⟨⟨k', v⟩, ⟨hin, hsome⟩, hk⟩
      simp only at hk
      subst hk
      exact ⟨v, hin, (emit_isSome_iff means stds z_threshold (k', v)).1 hsome⟩
    · rintro ⟨v, hin, hq⟩
      exact ⟨(k, v), ⟨hin, (emit_isSome_iff means stds z_threshold (k, v)).2 hq⟩, rfl⟩
  have hall := forall₂_keys_filterMap means stds z_threshold payload.entries
  rw [← heq] at hall
  refine ⟨heq, _, (List.filter_sublist _).map _, hmem, hall, ?_, ?_, hall.length_eq.symm, ?_⟩
  · intro k hk
    obtain ⟨v, hin, mu, sd, hm, hsd, hfm, hfs, hgt, hz⟩ := (hmem k).1 hk
    refine ⟨warning k (zscore v mu sd) z_threshold, ⟨_, _, rfl⟩, ?_, ?_⟩
    · rw [heq]
      refine count_filterMap_unique _ _ payload.nodup (k, v) hin _
        ((emit_eq_some_iff means stds z_threshold (k, v) _).2
          ⟨mu, sd, hm, hsd, hfm, hfs, hgt, hz, rfl⟩) ?_
      intro kv' _ hemit
      obtain ⟨mu', sd', -, -, -, -, -, -, h7⟩ :=
        (emit_eq_some_iff means stds z_threshold kv' _).1 hemit
      exact (warning_key_inj _ _ _ _ _ _ h7).symm
    · intro s' hs' hk'
      obtain ⟨v', mu', sd', hp', hm', hsd', -, -, -, -, hs''⟩ :=
        mem_ood_warnings_key payload means stds z_threshold k s' hs' hk'
      have hv : v' = v := value_unique _ payload.nodup k v' v hp' hin
      rw [hm] at hm'
      rw [hsd] at hsd'
      cases hm'
      cases hsd'
      rw [hs'', hv]
  · intro s hs k hk
    obtain ⟨v, mu, sd, hp, hm, hsd, hfm, hfs, hgt, hz, -⟩ :=
      mem_ood_warnings_key payload means stds z_threshold k s hs hk
    exact (hmem k).2 ⟨v, hp, mu, sd, hm, hsd, hfm, hfs, hgt, hz⟩
  · rw [heq]
    exact List.length_filterMap_le _ _

/-- A payload iterated in the order `b`, `c`, `a`, where `b` and `a` qualify:
the warnings come in the order `b`, `a`. -/
theorem ood_warnings_order_witness :
    ood_warnings
      ⟨[("b", F64.ofNat 50), ("c", F64.ofNat 1), ("a", F64.ofNat 40)], by decide⟩
      ⟨[("a", F64.ofNat 10), ("b", F64.ofNat 10), ("c", F64.ofNat 10)], by decide⟩
      ⟨[("c", F64.ofNat 10), ("b", F64.ofNat 10), ("a", F64.ofNat 10)], by decide⟩
      (F64.ofNat 3)
      = ["ood_warning:b:z=4.00 (threshold=3.00)", "ood_warning:a:z=3.00 (threshold=3.00)"] ∧
    ood_warnings
      ⟨[("b", F64.ofNat 50), ("c", F64.ofNat 1), ("a", F64.ofNat 40)], by decide⟩
      ⟨[("a", F64.ofNat 10), ("b", F64.ofNat 10), ("c", F64.ofNat 10)], by decide⟩
      ⟨[("c", F64.ofNat 10), ("b", F64.ofNat 10), ("a", F64.ofNat 10)], by decide⟩
      (F64.ofNat 3)
      = List.filterMap
        (emit ⟨[("a", F64.ofNat 10), ("b", F64.ofNat 10), ("c", F64.ofNat 10)], by decide⟩
          ⟨[("c", F64.ofNat 10), ("b", F64.ofNat 10), ("a", F64.ofNat 10)], by decide⟩
          (F64.ofNat 3))
        [("b", F64.ofNat 50), ("c", F64.ofNat 1), ("a", F64.ofNat 40)] :=
  ⟨by decide,
    (ood_warnings_order
      ⟨[("b", F64.ofNat 50), ("c", F64.ofNat 1), ("a", F64.ofNat 40)], by decide⟩
      ⟨[("a", F64.ofNat 10), ("b", F64.ofNat 10), ("c", F64.ofNat 10)], by decide⟩
      ⟨[("c", F64.ofNat 10), ("b", F64.ofNat 10), ("a", F64.ofNat 10)], by decide⟩
      (F64.ofNat 3)).1⟩

/-!
Totality
-/

/-- A double above `1e-12` is not a zero. -/
theorem F64.isZero_false_of_gt_tiny (sd : F64) (h : F64.gt sd F64.tiny = true) :
    F64.isZero sd = false := by
  cases sd with
  | nan => rfl
  | inf n => rfl
  | fin n m e =>
    cases m with
    | succ k => rfl
    | zero =>
      exfalso
      rw [F64.tiny_eq] at h
      have hpos : (0 : Int) < F64.scaled false 4951760157141521 (-92) (min e (-92)) := by
        simp only [F64.scaled, F64.sint, Bool.false_eq_true, if_false]
        positivity
      have hz : F64.scaled n 0 e (min e (-92)) = 0 := by
        unfold F64.scaled F64.sint
        cases n <;> simp
      have hc : compare (F64.scaled n 0 e (min e (-92)))
          (F64.scaled false 4951760157141521 (-92) (min e (-92))) = .lt := by
        rw [hz]
        exact compare_lt_iff_lt.2 hpos
      simp [F64.gt, F64.cmp, hc] at h

theorem ood_step_checked_eq (means stds : UMap) (t : F64) (out : List String)
    (kv : String × F64) :
    ood_step_checked means stds t (some out) kv = some (ood_step means stds t out kv) := by
  unfold ood_step_checked ood_step
  cases hm : means.find kv.1 with
  | none => simp
  | some mu =>
    cases hs : stds.find kv.1 with
    | none => simp
    | some sd =>
      simp only []
      cases hg : (!F64.isFinite mu || !F64.isFinite sd || F64.le sd F64.tiny)
      · obtain ⟨-, -, h3⟩ := (guard_false_iff mu sd).1 hg
        have hz := F64.isZero_false_of_gt_tiny sd h3
        simp only [F64.divChecked, hz, Bool.false_eq_true, if_false]
        split <;> rfl
      · simp

theorem foldl_ood_step_checked (means stds : UMap) (t : F64) (l : List (String × F64))
    (out : List String) :
    l.foldl (ood_step_checked means stds t) (some out)
      = some (l.foldl (ood_step means stds t) out) := by
  induction l generalizing out with
  | nil => rfl
  | cons kv rest ih => rw [List.foldl_cons, List.foldl_cons, ood_step_checked_eq, ih]

theorem foldl_ood_step_divisors (means stds : UMap) (l : List (String × F64)) (ds : List F64)
    (P : F64 → Prop) (hds : ∀ d ∈ ds, P d)
    (hP : ∀ d, F64.isFinite d = true → F64.gt d F64.tiny = true → P d) :
    ∀ d ∈ l.foldl (ood_step_divisors means stds) ds, P d := by
  induction l generalizing ds with
  | nil => simpa using hds
  | cons kv rest ih =>
    rw [List.foldl_cons]
    apply ih
    unfold ood_step_divisors
    cases hm : means.find kv.1 with
    | none => simpa using hds
    | some mu =>
      cases hs : stds.find kv.1 with
      | none => simpa using hds
      | some sd =>
        simp only []
        cases hg : (!F64.isFinite mu || !F64.isFinite sd || F64.le sd F64.tiny)
        · obtain ⟨-, h2, h3⟩ := (guard_false_iff mu sd).1 hg
          intro d hd
          simp only [Bool.false_eq_true, if_false, List.mem_append, List.mem_singleton] at hd
          rcases hd with hd | hd
          · exact hds d hd
          · rw [hd]
            exact hP sd h2 h3
        · simpa using hds

/-- C9: `label_from_threshold` and `ood_warnings` return a value for every
input (NaN, infinities, empty maps and missing keys included): the label is one
of the two texts, the loop run with a division that fails on a zero divisor
never fails and gives the result of `ood_warnings`, and every divisor of a
division the loop performs is finite, above `1e-12`, and not a zero. -/
theorem engine_total (prob threshold : F64) (payload means stds : UMap) (z_threshold : F64) :
    (label_from_threshold prob threshold = "high_risk" ∨
      label_from_threshold prob threshold = "low_risk") ∧
    ood_warnings_checked payload means stds z_threshold
      = some (ood_warnings payload means stds z_threshold) ∧
    (∀ d ∈ ood_divisors payload means stds,
      F64.isFinite d = true ∧ F64.gt d F64.tiny = true ∧ F64.isZero d = false) := by
  refine ⟨?_, foldl_ood_step_checked means stds z_threshold payload.entries [], ?_⟩
  · unfold label_from_threshold
    cases F64.ge prob threshold <;> simp
  · exact foldl_ood_step_divisors means stds payload.entries [] _ (by simp)
      (fun d h1 h2 => ⟨h1, h2, F64.isZero_false_of_gt_tiny d h2⟩)

/-- NaN and infinite arguments, empty maps, a missing key and a zero standard
deviation: a value comes back, and the loop divides by the one standard
deviation that passes the guard. -/
theorem engine_total_witness :
    label_from_threshold .nan (.inf false) = "low_risk" ∧
    ood_warnings UMap.empty UMap.empty UMap.empty .nan = [] ∧
    ood_warnings_checked (UMap.pair "x" .nan "age" (.inf true) (by decide))
      (UMap.pair "x" (F64.ofNat 1) "age" (F64.ofNat 30) (by decide))
      (UMap.pair "x" (F64.ofNat 0) "age" (F64.ofNat 5) (by decide)) (F64.ofNat 3)
      = some ["ood_warning:age:z=-inf (threshold=3.00)"] ∧
    ood_divisors (UMap.pair "x" .nan "age" (.inf true) (by decide))
      (UMap.pair "x" (F64.ofNat 1) "age" (F64.ofNat 30) (by decide))
      (UMap.pair "x" (F64.ofNat 0) "age" (F64.ofNat 5) (by decide)) = [F64.ofNat 5] ∧
    ood_warnings_checked (UMap.pair "x" .nan "age" (.inf true) (by decide))
      (UMap.pair "x" (F64.ofNat 1) "age" (F64.ofNat 30) (by decide))
      (UMap.pair "x" (F64.ofNat 0) "age" (F64.ofNat 5) (by decide)) (F64.ofNat 3)
      = some (ood_warnings (UMap.pair "x" .nan "age" (.inf true) (by decide))
        (UMap.pair "x" (F64.ofNat 1) "age" (F64.ofNat 30) (by decide))
        (UMap.pair "x" (F64.ofNat 0) "age" (F64.ofNat 5) (by decide)) (F64.ofNat 3)) :=
  ⟨by decide, by decide, by decide!, by decide!,
    (engine_total .nan .nan (UMap.pair "x" .nan "age" (.inf true) (by decide))
      (UMap.pair "x" (F64.ofNat 1) "age" (F64.ofNat 30) (by decide))
      (UMap.pair "x" (F64.ofNat 0) "age" (F64.ofNat 5) (by decide)) (F64.ofNat 3)).2.1⟩

/-- C10: when `prob` or `threshold` is a NaN (or both are),
`label_from_threshold(prob, threshold)` is `"low_risk"`. -/
theorem label_from_threshold_nan (prob threshold : F64)
    (h : F64.isNaN prob = true ∨ F64.isNaN threshold = true) :
    label_from_threshold prob threshold = "low_risk" := by
  unfold label_from_threshold F64.ge
  rw [F64.cmp_of_isNaN prob threshold h]
  rfl

/-- A NaN probability, a NaN threshold, and both. -/
theorem label_from_threshold_nan_witness :
    F64.isNaN .nan = true ∧
    label_from_threshold .nan (F64.ofDec false 5 (-1)) = "low_risk" ∧
    label_from_threshold (F64.ofDec false 8 (-1)) .nan = "low_risk" ∧
    label_from_threshold .nan .nan = "low_risk" ∧
    label_from_threshold (.inf false) .nan = "low_risk" :=
  ⟨by decide,
    label_from_threshold_nan .nan (F64.ofDec false 5 (-1)) (Or.inl (by decide)),
    label_from_threshold_nan (F64.ofDec false 8 (-1)) .nan (Or.inr (by decide)),
    label_from_threshold_nan .nan .nan (Or.inl (by decide)),
    label_from_threshold_nan (.inf false) .nan (Or.inr (by decide))⟩

/-!
The order of the doubles
-/

theorem F64.scaled_shift (n : Bool) (m : Nat) (e e0 e1 : Int) (h0 : e0 ≤ e1) (h1 : e1 ≤ e) :
    F64.scaled n m e e0 = F64.scaled n m e e1 * 2 ^ (e1 - e0).toNat := by
  unfold F64.scaled
  have : (e - e0).toNat = (e - e1).toNat + (e1 - e0).toNat := by omega
  rw [this, pow_add, mul_assoc]

/-- Two finite doubles compare as their significands rescaled to any common
exponent below both exponents. -/
theorem F64.scaled_le_iff (n1 : Bool) (m1 : Nat) (e1 : Int) (n2 : Bool) (m2 : Nat) (e2 : Int)
    (e0 : Int) (h1 : e0 ≤ e1) (h2 : e0 ≤ e2) :
    F64.scaled n1 m1 e1 e0 ≤ F64.scaled n2 m2 e2 e0 ↔
      F64.scaled n1 m1 e1 (min e1 e2) ≤ F64.scaled n2 m2 e2 (min e1 e2) := by
  have hmin : e0 ≤ min e1 e2 := le_min h1 h2
  rw [F64.scaled_shift n1 m1 e1 e0 (min e1 e2) hmin (min_le_left _ _),
    F64.scaled_shift n2 m2 e2 e0 (min e1 e2) hmin (min_le_right _ _)]
  have hpos : (0 : Int) < 2 ^ (min e1 e2 - e0).toNat := by positivity
  exact mul_le_mul_right hpos

theorem F64.le_fin_iff (n1 : Bool) (m1 : Nat) (e1 : Int) (n2 : Bool) (m2 : Nat) (e2 : Int) :
    F64.le (.fin n1 m1 e1) (.fin n2 m2 e2) = true ↔
      F64.scaled n1 m1 e1 (min e1 e2) ≤ F64.scaled n2 m2 e2 (min e1 e2) := by
  unfold F64.le F64.cmp
  rcases lt_trichotomy (F64.scaled n1 m1 e1 (min e1 e2)) (F64.scaled n2 m2 e2 (min e1 e2))
    with h | h | h
  · simp [compare_lt_iff_lt.2 h, le_of_lt h]
  · have hc := compare_eq_iff_eq.2 h
    simp only [hc]
    simp [h]
  · simp [compare_gt_iff_gt.2 h, not_le.2 h]

theorem F64.ge_fin_iff (n1 : Bool) (m1 : Nat) (e1 : Int) (n2 : Bool) (m2 : Nat) (e2 : Int) :
    F64.ge (.fin n1 m1 e1) (.fin n2 m2 e2) = true ↔
      F64.scaled n2 m2 e2 (min e1 e2) ≤ F64.scaled n1 m1 e1 (min e1 e2) := by
  unfold F64.ge F64.cmp
  rcases lt_trichotomy (F64.scaled n1 m1 e1 (min e1 e2)) (F64.scaled n2 m2 e2 (min e1 e2))
    with h | h | h
  · simp [compare_lt_iff_lt.2 h, not_le.2 h]
  · have hc := compare_eq_iff_eq.2 h
    simp only [hc]
    simp [h]
  · simp [compare_gt_iff_gt.2 h, le_of_lt h]

/-- `a >= b` is `b <= a`. -/
theorem F64.ge_eq_le (a b : F64) : F64.ge a b = F64.le b a := by
  rcases a with _ | (_ | _) | ⟨n1, m1, e1⟩ <;> rcases b with _ | (_ | _) | ⟨n2, m2, e2⟩ <;>
    try rfl
  rw [Bool.eq_iff_iff, F64.ge_fin_iff, F64.le_fin_iff, min_comm]

/-- The order `<=` of the doubles is transitive. -/
theorem F64.le_of_le_of_le (a b c : F64) (h1 : F64.le a b = true) (h2 : F64.le b c = true) :
    F64.le a c = true := by
  rcases a with _ | (_ | _) | ⟨n1, m1, e1⟩ <;> rcases b with _ | (_ | _) | ⟨n2, m2, e2⟩ <;>
    rcases c with _ | (_ | _) | ⟨n3, m3, e3⟩ <;>
    first
    | rfl
    | (simp [F64.le, F64.cmp] at h1; done)
    | (simp [F64.le, F64.cmp] at h2; done)
    | skip
  rw [F64.le_fin_iff] at h1 h2 ⊢
  have hb1 : min e1 (min e2 e3) ≤ e1 := min_le_left _ _
  have hb2 : min e1 (min e2 e3) ≤ e2 := Int.le_trans (min_le_right _ _) (min_le_left _ _)
  have hb3 : min e1 (min e2 e3) ≤ e3 := Int.le_trans (min_le_right _ _) (min_le_right _ _)
  rw [← F64.scaled_le_iff n1 m1 e1 n2 m2 e2 _ hb1 hb2] at h1
  rw [← F64.scaled_le_iff n2 m2 e2 n3 m3 e3 _ hb2 hb3] at h2
  rw [← F64.scaled_le_iff n1 m1 e1 n3 m3 e3 _ hb1 hb3]
  exact Int.le_trans h1 h2

theorem F64.ge_of_ge_of_le (x t2 t1 : F64) (h : F64.ge x t2 = true) (h12 : F64.le t1 t2 = true) :
    F64.ge x t1 = true := by
  rw [F64.ge_eq_le] at h ⊢
  exact F64.le_of_le_of_le t1 t2 x h12 h

/-!
The arithmetic and NaN
-/

theorem F64.round_not_nan (neg : Bool) (p q : Nat) (e : Int) :
    F64.isNaN (F64.round neg p q e) = false := by
  unfold F64.round
  dsimp only
  split <;> split <;> rfl

theorem F64.sub_not_nan (value mu : F64) (hv : F64.isNaN value = false)
    (hmu : F64.isFinite mu = true) : F64.isNaN (F64.sub value mu) = false := by
  rcases value with _ | n | ⟨n1, m1, e1⟩ <;> rcases mu with _ | n' | ⟨n2, m2, e2⟩ <;>
    simp [F64.isNaN, F64.isFinite] at hv hmu
  · rfl
  · unfold F64.sub
    dsimp only
    split
    · rfl
    · exact F64.round_not_nan _ _ _ _

theorem F64.div_not_nan (x sd : F64) (hx : F64.isNaN x = false)
    (hsd : F64.isFinite sd = true) (hz : F64.isZero sd = false) :
    F64.isNaN (F64.div x sd) = false := by
  rcases x with _ | n | ⟨n1, m1, e1⟩ <;> rcases sd with _ | n' | ⟨n2, m2, e2⟩ <;>
    simp [F64.isNaN, F64.isFinite] at hx hsd
  · rfl
  · have hm : m2 ≠ 0 := by
      intro h0
      rw [h0] at hz
      exact absurd hz (by simp [F64.isZero])
    unfold F64.div
    simp only [hm, if_false]
    split
    · rfl
    · exact F64.round_not_nan _ _ _ _

/-- The z-score is not a NaN when the value is not a NaN, the mean is finite and
the standard deviation is finite and above `1e-12`. -/
theorem zscore_not_nan (value mu sd : F64) (hv : F64.isNaN value = false)
    (hmu : F64.isFinite mu = true) (hsd : F64.isFinite sd = true)
    (hgt : F64.gt sd F64.tiny = true) : F64.isNaN (zscore value mu sd) = false :=
  F64.div_not_nan _ _ (F64.sub_not_nan value mu hv hmu) hsd (F64.isZero_false_of_gt_tiny sd hgt)

/-- The z-score of a NaN value is a NaN. -/
theorem zscore_nan (mu sd : F64) : zscore .nan mu sd = .nan := by
  unfold zscore
  have h : F64.sub .nan mu = .nan := by cases mu <;> rfl
  rw [h]
  cases sd <;> rfl

/-- The z-score of an infinite value is infinite, for a finite mean and a finite
standard deviation. -/
theorem fabs_zscore_inf (n : Bool) (mu sd : F64) (hmu : F64.isFinite mu = true)
    (hsd : F64.isFinite sd = true) : F64.fabs (zscore (.inf n) mu sd) = .inf false := by
  rcases mu with _ | n' | ⟨n2, m2, e2⟩ <;> simp [F64.isFinite] at hmu
  rcases sd with _ | n' | ⟨n3, m3, e3⟩ <;> simp [F64.isFinite] at hsd
  rfl

/-- The absolute value of a double that is not a NaN is at or above zero. -/
theorem F64.fabs_ge_zero (z : F64) (hz : F64.isNaN z = false) :
    F64.ge (F64.fabs z) (F64.ofNat 0) = true := by
  have h0 : F64.ofNat 0 = .fin false 0 F64.emin := by decide
  rw [h0]
  rcases z with _ | n | ⟨n1, m1, e1⟩
  · simp [F64.isNaN] at hz
  · rfl
  · show F64.ge (.fin false m1 e1) (.fin false 0 F64.emin) = true
    rw [F64.ge_fin_iff]
    simp only [F64.scaled, F64.sint, Bool.false_eq_true, if_false]
    rw [Int.natCast_zero, zero_mul]
    positivity

/-- Positive infinity is at or above every double that is not a NaN. -/
theorem F64.inf_ge (t : F64) (ht : F64.isNaN t = false) : F64.ge (.inf false) t = true := by
  rcases t with _ | (_ | _) | ⟨n, m, e⟩
  · simp [F64.isNaN] at ht
  · rfl
  · rfl
  · rfl

theorem F64.ge_nan_right (a : F64) : F64.ge a .nan = false := by
  unfold F64.ge
  rw [F64.cmp_nan_right]

theorem F64.ge_nan_left (b : F64) : F64.ge .nan b = false := by
  unfold F64.ge
  rw [F64.cmp_nan_left]

/-!
Determinism and locality
-/

theorem emit_congr (means means' stds stds' : UMap) (t : F64) (kv : String × F64)
    (hm : means.find kv.1 = means'.find kv.1) (hs : stds.find kv.1 = stds'.find kv.1) :
    emit means stds t kv = emit means' stds' t kv := by
  unfold emit
  rw [hm, hs]

theorem ood_warnings_congr (entries : List (String × F64)) (means means' stds stds' : UMap)
    (t : F64)
    (h : ∀ kv ∈ entries, means.find kv.1 = means'.find kv.1 ∧ stds.find kv.1 = stds'.find kv.1) :
    entries.filterMap (emit means stds t) = entries.filterMap (emit means' stds' t) :=
  List.filterMap_congr (fun kv hkv => emit_congr means means' stds stds' t kv (h kv hkv).1 (h kv hkv).2)

theorem ood_warnings_single (k : String) (v : F64) (means stds : UMap) (t : F64) :
    ood_warnings (UMap.single k v) means stds t = (emit means stds t (k, v)).toList := by
  rw [ood_warnings_eq]
  show [(k, v)].filterMap (emit means stds t) = _
  cases h : emit means stds t (k, v) <;> simp [List.filterMap_cons, h]

theorem filterMap_emit_eq_flatMap (means stds : UMap) (t : F64) (l : List (String × F64)) :
    l.filterMap (emit means stds t)
      = l.flatMap (fun kv => ood_warnings (UMap.single kv.1 kv.2) means stds t) := by
  induction l with
  | nil => rfl
  | cons a r ih =>
    rw [List.flatMap_cons, ← ih, ood_warnings_single, List.filterMap_cons]
    cases emit means stds t (a.1, a.2) <;> rfl

theorem erase_entries (m : UMap) (k0 : String) :
    (m.erase k0).entries = m.entries.filter (fun kv => decide (kv.1 ≠ k0)) := rfl

/-- Without the entry of `k0` the result loses at most one warning. -/
theorem length_filterMap_erase (f : String × F64 → Option String) (k0 : String)
    (l : List (String × F64)) (hnd : (l.map Prod.fst).Nodup) :
    (l.filterMap f).length
      ≤ ((l.filter (fun kv => decide (kv.1 ≠ k0))).filterMap f).length + 1 := by
  induction l with
  | nil => simp
  | cons a r ih =>
    simp only [List.map_cons, List.nodup_cons, List.mem_map, not_exists, not_and] at hnd
    by_cases ha : a.1 = k0
    · have hr : r.filter (fun kv => decide (kv.1 ≠ k0)) = r := by
        rw [List.filter_eq_self]
        intro kv hkv
        have : kv.1 ≠ a.1 := fun h => hnd.1 kv hkv h
        simpa [ha] using this
      have hcons : (a :: r).filter (fun kv => decide (kv.1 ≠ k0)) = r := by
        rw [List.filter_cons_of_neg (by simp [ha]), hr]
      rw [hcons, List.filterMap_cons]
      cases f a
      · exact Nat.le_succ _
      · exact Nat.le_refl _
    · have hcons : (a :: r).filter (fun kv => decide (kv.1 ≠ k0))
          = a :: r.filter (fun kv => decide (kv.1 ≠ k0)) :=
        List.filter_cons_of_pos (by simpa using ha)
      rw [hcons, List.filterMap_cons, List.filterMap_cons]
      have := ih hnd.2
      cases f a
      · exact this
      · exact Nat.succ_le_succ this

theorem ood_warnings_erase (payload means stds : UMap) (t : F64) (k0 : String) :
    (ood_warnings (payload.erase k0) means stds t).Sublist (ood_warnings payload means stds t) ∧
    (∀ s ∈ ood_warnings payload means stds t,
      s ∈ ood_warnings (payload.erase k0) means stds t ∨ IsWarningFor k0 s) ∧
    (ood_warnings payload means stds t).length
      ≤ (ood_warnings (payload.erase k0) means stds t).length + 1 := by
  rw [ood_warnings_eq, ood_warnings_eq, erase_entries]
  refine ⟨(List.filter_sublist _).filterMap _, ?_, length_filterMap_erase _ k0 _ payload.nodup⟩
  intro s hs
  obtain ⟨kv, hkv, hemit⟩ := List.mem_filterMap.1 hs
  by_cases hk : kv.1 = k0
  · right
    rw [← hk]
    exact isWarningFor_of_emit means stds t kv s hemit
  · left
    exact List.mem_filterMap.2 ⟨kv, List.mem_filter.2 ⟨hkv, by simpa using hk⟩, hemit⟩

/-- C12: `ood_warnings` is local.  The result is the concatenation, in the
iteration order of the payload, of the results for the payload's entries taken
one at a time, and the result for one entry depends only on its key, its
value, the lookups of its key in `means` and `stds`, and the threshold.  So a
change of `means` and `stds` at keys that are not in the payload leaves the
result unchanged, and a change of the payload and of the statistics at one key
`k0` leaves the warnings of the other keys unchanged, in content and in order:
both results are the common list of these warnings with at most one warning,
for `k0`, inserted. -/
theorem ood_warnings_local (payload payload' means means' stds stds' : UMap) (t : F64)
    (k0 : String) :
    ood_warnings payload means stds t
      = payload.entries.flatMap (fun kv => ood_warnings (UMap.single kv.1 kv.2) means stds t) ∧
    (∀ (k : String) (v : F64), means.find k = means'.find k → stds.find k = stds'.find k →
      ood_warnings (UMap.single k v) means stds t
        = ood_warnings (UMap.single k v) means' stds' t) ∧
    ((∀ kv ∈ payload.entries,
        means.find kv.1 = means'.find kv.1 ∧ stds.find kv.1 = stds'.find kv.1) →
      ood_warnings payload means stds t = ood_warnings payload means' stds' t) ∧
    ((payload.erase k0).entries = (payload'.erase k0).entries →
      (∀ kv ∈ payload.entries, kv.1 ≠ k0 →
        means.find kv.1 = means'.find kv.1 ∧ stds.find kv.1 = stds'.find kv.1) →
      ood_warnings (payload.erase k0) means stds t
        = ood_warnings (payload'.erase k0) means' stds' t ∧
      (ood_warnings (payload.erase k0) means stds t).Sublist
        (ood_warnings payload means stds t) ∧
      (ood_warnings (payload.erase k0) means stds t).Sublist
        (ood_warnings payload' means' stds' t) ∧
      (∀ s ∈ ood_warnings payload means stds t,
        s ∈ ood_warnings (payload.erase k0) means stds t ∨ IsWarningFor k0 s) ∧
      (∀ s ∈ ood_warnings payload' means' stds' t,
        s ∈ ood_warnings (payload.erase k0) means stds t ∨ IsWarningFor k0 s) ∧
      (ood_warnings payload means stds t).length
        ≤ (ood_warnings (payload.erase k0) means stds t).length + 1 ∧
      (ood_warnings payload' means' stds' t).length
        ≤ (ood_warnings (payload.erase k0) means stds t).length + 1) := by
  refine ⟨?_, ?_, ?_, ?_⟩
  · rw [ood_warnings_eq]
    exact filterMap_emit_eq_flatMap means stds t payload.entries
  · intro k v hm hs
    rw [ood_warnings_single, ood_warnings_single, emit_congr means means' stds stds' t (k, v) hm hs]
  · intro h
    rw [ood_warnings_eq, ood_warnings_eq]
    exact ood_warnings_congr _ _ _ _ _ _ h
  · intro he h
    have hcommon : ood_warnings (payload.erase k0) means stds t
        = ood_warnings (payload'.erase k0) means' stds' t := by
      rw [ood_warnings_eq, ood_warnings_eq, ← he]
      apply ood_warnings_congr
      intro kv hkv
      rw [erase_entries] at hkv
      obtain ⟨hin, hne⟩ := List.mem_filter.1 hkv
      exact h kv hin (by simpa using hne)
    obtain ⟨h1, h2, h3⟩ := ood_warnings_erase payload means stds t k0
    obtain ⟨h1', h2', h3'⟩ := ood_warnings_erase payload' means' stds' t k0
    rw [← hcommon] at h1' h2' h3'
    exact ⟨hcommon, h1, h1', h2, h2', h3, h3'⟩

/-- An entry added to `means` and `stds` for a key that the payload does not
have leaves the result unchanged; a change of the value of `age` leaves the
warning of `height` unchanged. -/
theorem ood_warnings_local_witness :
    ood_warnings (UMap.single "age" (F64.ofNat 100)) (UMap.single "age" (F64.ofNat 30))
        (UMap.single "age" (F64.ofNat 5)) (F64.ofNat 3)
      = ood_warnings (UMap.single "age" (F64.ofNat 100))
        (UMap.pair "zip" (F64.ofNat 7) "age" (F64.ofNat 30) (by decide))
        (UMap.pair "age" (F64.ofNat 5) "zip" (F64.ofNat 2) (by decide)) (F64.ofNat 3) ∧
    ood_warnings
        ((UMap.pair "age" (F64.ofNat 100) "height" (F64.ofNat 150) (by decide)).erase "age")
        (UMap.pair "age" (F64.ofNat 30) "height" (F64.ofNat 170) (by decide))
        (UMap.pair "age" (F64.ofNat 5) "height" (F64.ofNat 10) (by decide)) (F64.ofNat 2)
      = ood_warnings
        ((UMap.pair "age" (F64.ofNat 31) "height" (F64.ofNat 150) (by decide)).erase "age")
        (UMap.pair "age" (F64.ofNat 30) "height" (F64.ofNat 170) (by decide))
        (UMap.pair "age" (F64.ofNat 5) "height" (F64.ofNat 10) (by decide)) (F64.ofNat 2) ∧
    ood_warnings (UMap.pair "age" (F64.ofNat 100) "height" (F64.ofNat 150) (by decide))
        (UMap.pair "age" (F64.ofNat 30) "height" (F64.ofNat 170) (by decide))
        (UMap.pair "age" (F64.ofNat 5) "height" (F64.ofNat 10) (by decide)) (F64.ofNat 2)
      = ["ood_warning:age:z=14.00 (threshold=2.00)",
        "ood_warning:height:z=-2.00 (threshold=2.00)"] ∧
    ood_warnings (UMap.pair "age" (F64.ofNat 31) "height" (F64.ofNat 150) (by decide))
        (UMap.pair "age" (F64.ofNat 30) "height" (F64.ofNat 170) (by decide))
        (UMap.pair "age" (F64.ofNat 5) "height" (F64.ofNat 10) (by decide)) (F64.ofNat 2)
      = ["ood_warning:height:z=-2.00 (threshold=2.00)"] :=
  ⟨(ood_warnings_local (UMap.single "age" (F64.ofNat 100)) (UMap.single "age" (F64.ofNat 100))
      (UMap.single "age" (F64.ofNat 30))
      (UMap.pair "zip" (F64.ofNat 7) "age" (F64.ofNat 30) (by decide))
      (UMap.single "age" (F64.ofNat 5))
      (UMap.pair "age" (F64.ofNat 5) "zip" (F64.ofNat 2) (by decide)) (F64.ofNat 3) "zip").2.2.1
      (fun kv hkv => by
        have h : kv = ("age", F64.ofNat 100) := by simpa [UMap.single] using hkv
        subst h
        exact ⟨by decide, by decide⟩),
    ((ood_warnings_local
      (UMap.pair "age" (F64.ofNat 100) "height" (F64.ofNat 150) (by decide))
      (UMap.pair "age" (F64.ofNat 31) "height" (F64.ofNat 150) (by decide))
      (UMap.pair "age" (F64.ofNat 30) "height" (F64.ofNat 170) (by decide))
      (UMap.pair "age" (F64.ofNat 30) "height" (F64.ofNat 170) (by decide))
      (UMap.pair "age" (F64.ofNat 5) "height" (F64.ofNat 10) (by decide))
      (UMap.pair "age" (F64.ofNat 5) "height" (F64.ofNat 10) (by decide))
      (F64.ofNat 2) "age").2.2.2 (by decide) (fun _ _ _ => ⟨rfl, rfl⟩)).1,
    by decide, by decide⟩

/-!
Monotonicity
-/

/-- C13: raising the threshold never adds a warning: for thresholds
`t1 <= t2` (so neither is a NaN), a key that has a warning in the result at
`t2` has one in the result at `t1`. -/
theorem ood_warnings_threshold_mono (payload means stds : UMap) (t1 t2 : F64) (key : String)
    (h12 : F64.le t1 t2 = true)
    (h : ∃ s ∈ ood_warnings payload means stds t2, IsWarningFor key s) :
    ∃ s ∈ ood_warnings payload means stds t1, IsWarningFor key s := by
  obtain ⟨s, hs, hk⟩ := h
  obtain ⟨v, mu, sd, hp, hm, hsd, hfm, hfs, hgt, hz, -⟩ :=
    mem_ood_warnings_key payload means stds t2 key s hs hk
  exact ⟨warning key (zscore v mu sd) t1,
    warning_mem_ood_warnings payload means stds t1 key v mu sd hp hm hsd hfm hfs hgt
      (F64.ge_of_ge_of_le _ t2 t1 hz h12), ⟨_, _, rfl⟩⟩

/-- The warning of `age` at the threshold 3 is there at the threshold 2. -/
theorem ood_warnings_threshold_mono_witness :
    F64.le (F64.ofNat 2) (F64.ofNat 3) = true ∧
    ood_warnings (UMap.single "age" (F64.ofNat 100)) (UMap.single "age" (F64.ofNat 30))
      (UMap.single "age" (F64.ofNat 5)) (F64.ofNat 3)
      = ["ood_warning:age:z=14.00 (threshold=3.00)"] ∧
    ∃ s ∈ ood_warnings (UMap.single "age" (F64.ofNat 100)) (UMap.single "age" (F64.ofNat 30))
      (UMap.single "age" (F64.ofNat 5)) (F64.ofNat 2), IsWarningFor "age" s :=
  ⟨by decide, by decide,
    ood_warnings_threshold_mono (UMap.single "age" (F64.ofNat 100))
      (UMap.single "age" (F64.ofNat 30)) (UMap.single "age" (F64.ofNat 5))
      (F64.ofNat 2) (F64.ofNat 3) "age" (by decide)
      ⟨"ood_warning:age:z=14.00 (threshold=3.00)", by decide,
        zscore (F64.ofNat 100) (F64.ofNat 30) (F64.ofNat 5), F64.ofNat 3, by decide⟩⟩

theorem label_high_iff (prob threshold : F64) :
    label_from_threshold prob threshold = "high_risk" ↔ F64.ge prob threshold = true := by
  unfold label_from_threshold
  cases F64.ge prob threshold
  · simp only [Bool.false_eq_true, if_false, iff_false]
    decide
  · simp

/-- C14: a higher probability or a lower threshold never turns `"high_risk"`
into `"low_risk"`: if the label of `(p, t)` is `"high_risk"` then so is the
label of `(p', t)` for `p' >= p` and the label of `(p, t')` for `t' <= t`
(the three comparisons hold for doubles that are not NaN only). -/
theorem label_from_threshold_mono (p t p' t' : F64)
    (h : label_from_threshold p t = "high_risk") :
    (F64.ge p' p = true → label_from_threshold p' t = "high_risk") ∧
    (F64.le t' t = true → label_from_threshold p t' = "high_risk") := by
  rw [label_high_iff] at h
  constructor
  · intro hge
    rw [label_high_iff, F64.ge_eq_le]
    rw [F64.ge_eq_le] at h hge
    exact F64.le_of_le_of_le t p p' h hge
  · intro hle
    rw [label_high_iff]
    exact F64.ge_of_ge_of_le p t t' h hle

/-- From `(0.5, 0.5)` up to the probability 0.8 and down to the threshold 0.2. -/
theorem label_from_threshold_mono_witness :
    label_from_threshold (F64.ofDec false 5 (-1)) (F64.ofDec false 5 (-1)) = "high_risk" ∧
    label_from_threshold (F64.ofDec false 8 (-1)) (F64.ofDec false 5 (-1)) = "high_risk" ∧
    label_from_threshold (F64.ofDec false 5 (-1)) (F64.ofDec false 2 (-1)) = "high_risk" :=
  ⟨by decide,
    (label_from_threshold_mono (F64.ofDec false 5 (-1)) (F64.ofDec false 5 (-1))
      (F64.ofDec false 8 (-1)) (F64.ofDec false 2 (-1)) (by decide)).1 (by decide),
    (label_from_threshold_mono (F64.ofDec false 5 (-1)) (F64.ofDec false 5 (-1))
      (F64.ofDec false 8 (-1)) (F64.ofDec false 2 (-1)) (by decide)).2 (by decide)⟩

/-!
Edge cases of the threshold and of the payload values
-/

/-- C15: at a threshold at or below zero (minus infinity included; no range
check exists) every payload key that has a finite mean, a finite standard
deviation above `1e-12` and a value that is not a NaN has its warning in the
result of `ood_warnings`, also when the value equals the mean (`z = 0`). -/
theorem ood_warnings_nonpositive_threshold (payload means stds : UMap) (z_threshold : F64)
    (key : String) (value mu sd : F64)
    (hthr : F64.le z_threshold (F64.ofNat 0) = true)
    (hp : (key, value) ∈ payload.entries)
    (hm : means.find key = some mu) (hs : stds.find key = some sd)
    (hfm : F64.isFinite mu = true) (hfs : F64.isFinite sd = true)
    (hgt : F64.gt sd F64.tiny = true) (hv : F64.isNaN value = false) :
    warning key (zscore value mu sd) z_threshold ∈ ood_warnings payload means stds z_threshold ∧
    ∃ s ∈ ood_warnings payload means stds z_threshold, IsWarningFor key s := by
  have hz : F64.ge (F64.fabs (zscore value mu sd)) z_threshold = true :=
    F64.ge_of_ge_of_le _ _ _
      (F64.fabs_ge_zero _ (zscore_not_nan value mu sd hv hfm hfs hgt)) hthr
  have hmem := warning_mem_ood_warnings payload means stds z_threshold key value mu sd
    hp hm hs hfm hfs hgt hz
  exact ⟨hmem, _, hmem, _, _, rfl⟩

/-- A value equal to its mean (`z = 0`) at the thresholds `0`, `-1` and `-inf`. -/
theorem ood_warnings_nonpositive_threshold_witness :
    ood_warnings (UMap.single "age" (F64.ofNat 30)) (UMap.single "age" (F64.ofNat 30))
      (UMap.single "age" (F64.ofNat 5)) (F64.ofNat 0)
      = ["ood_warning:age:z=0.00 (threshold=0.00)"] ∧
    ood_warnings (UMap.single "age" (F64.ofNat 30)) (UMap.single "age" (F64.ofNat 30))
      (UMap.single "age" (F64.ofNat 5)) (F64.ofDec true 1 0)
      = ["ood_warning:age:z=0.00 (threshold=-1.00)"] ∧
    ood_warnings (UMap.single "age" (F64.ofNat 30)) (UMap.single "age" (F64.ofNat 30))
      (UMap.single "age" (F64.ofNat 5)) (.inf true)
      = ["ood_warning:age:z=0.00 (threshold=-inf)"] ∧
    warning "age" (zscore (F64.ofNat 30) (F64.ofNat 30) (F64.ofNat 5)) (F64.ofDec true 1 0)
      ∈ ood_warnings (UMap.single "age" (F64.ofNat 30)) (UMap.single "age" (F64.ofNat 30))
        (UMap.single "age" (F64.ofNat 5)) (F64.ofDec true 1 0) :=
  ⟨by decide!, by decide!, by decide!,
    (ood_warnings_nonpositive_threshold (UMap.single "age" (F64.ofNat 30))
      (UMap.single "age" (F64.ofNat 30)) (UMap.single "age" (F64.ofNat 5)) (F64.ofDec true 1 0)
      "age" (F64.ofNat 30) (F64.ofNat 30) (F64.ofNat 5)
      (by decide!) (by decide) (by decide) (by decide) (by decide) (by decide) (by decide)
      (by decide)).1⟩

theorem ood_warnings_nan_threshold (payload means stds : UMap) :
    ood_warnings payload means stds .nan = [] := by
  rw [List.eq_nil_iff_forall_not_mem]
  intro s hs
  obtain ⟨kv, -, hemit⟩ := (mem_ood_warnings_iff payload means stds .nan s).1 hs
  obtain ⟨mu, sd, -, -, -, -, -, h6, -⟩ := (emit_eq_some_iff means stds .nan kv s).1 hemit
  rw [F64.ge_nan_right] at h6
  exact Bool.noConfusion h6

/-- C16: for a key with a finite mean and a finite standard deviation above
`1e-12`, a NaN value gives no warning for that key, whatever the threshold; a
NaN threshold gives the empty list, whatever the payload and the statistics;
and a value `+inf` or `-inf` gives a warning for that key at every threshold
that is not a NaN. -/
theorem ood_warnings_non_finite_value (payload means stds : UMap) (z_threshold : F64)
    (key : String) (mu sd : F64) :
    ((key, F64.nan) ∈ payload.entries →
      ∀ s ∈ ood_warnings payload means stds z_threshold, ¬ IsWarningFor key s) ∧
    (F64.isNaN z_threshold = true → ood_warnings payload means stds z_threshold = []) ∧
    (∀ n : Bool, (key, F64.inf n) ∈ payload.entries → means.find key = some mu →
      stds.find key = some sd → F64.isFinite mu = true → F64.isFinite sd = true →
      F64.gt sd F64.tiny = true → F64.isNaN z_threshold = false →
      warning key (zscore (.inf n) mu sd) z_threshold
          ∈ ood_warnings payload means stds z_threshold ∧
        F64.fabs (zscore (.inf n) mu sd) = .inf false) := by
  refine ⟨?_, ?_, ?_⟩
  · intro hp s hs hk
    obtain ⟨v, mu', sd', hp', -, -, -, -, -, hz, -⟩ :=
      mem_ood_warnings_key payload means stds z_threshold key s hs hk
    have hv : v = .nan := value_unique _ payload.nodup key v .nan hp' hp
    rw [hv, zscore_nan] at hz
    exact absurd hz (by simp [F64.fabs, F64.ge_nan_left])
  · intro hnan
    have : z_threshold = .nan := by
      cases z_threshold <;> simp [F64.isNaN] at hnan
      rfl
    rw [this]
    exact ood_warnings_nan_threshold payload means stds
  · intro n hp hm hs hfm hfs hgt hthr
    have habs := fabs_zscore_inf n mu sd hfm hfs
    refine ⟨warning_mem_ood_warnings payload means stds z_threshold key (.inf n) mu sd
      hp hm hs hfm hfs hgt ?_, habs⟩
    rw [habs]
    exact F64.inf_ge z_threshold hthr

/-- A NaN value, a NaN threshold, and the values `+inf` and `-inf`. -/
theorem ood_warnings_non_finite_value_witness :
    (∀ s ∈ ood_warnings (UMap.single "age" .nan) (UMap.single "age" (F64.ofNat 30))
      (UMap.single "age" (F64.ofNat 5)) (.inf true), ¬ IsWarningFor "age" s) ∧
    ood_warnings (UMap.single "age" .nan) (UMap.single "age" (F64.ofNat 30))
      (UMap.single "age" (F64.ofNat 5)) (.inf true) = [] ∧
    ood_warnings (UMap.single "age" (F64.ofNat 100)) (UMap.single "age" (F64.ofNat 30))
      (UMap.single "age" (F64.ofNat 5)) .nan = [] ∧
    warning "age" (zscore (.inf true) (F64.ofNat 30) (F64.ofNat 5)) F64.maxFinite
      ∈ ood_warnings (UMap.single "age" (.inf true)) (UMap.single "age" (F64.ofNat 30))
        (UMap.single "age" (F64.ofNat 5)) F64.maxFinite ∧
    ood_warnings (UMap.single "age" (.inf true)) (UMap.single "age" (F64.ofNat 30))
      (UMap.single "age" (F64.ofNat 5)) (.inf false)
      = ["ood_warning:age:z=-inf (threshold=inf)"] ∧
    ood_warnings (UMap.single "age" (.inf false)) (UMap.single "age" (F64.ofNat 30))
      (UMap.single "age" (F64.ofNat 5)) (F64.ofNat 3)
      = ["ood_warning:age:z=inf (threshold=3.00)"] :=
  ⟨(ood_warnings_non_finite_value (UMap.single "age" .nan) (UMap.single "age" (F64.ofNat 30))
      (UMap.single "age" (F64.ofNat 5)) (.inf true) "age" (F64.ofNat 30) (F64.ofNat 5)).1
      (by decide),
    by decide,
    (ood_warnings_non_finite_value (UMap.single "age" (F64.ofNat 100))
      (UMap.single "age" (F64.ofNat 30)) (UMap.single "age" (F64.ofNat 5)) .nan "age"
      (F64.ofNat 30) (F64.ofNat 5)).2.1 (by decide),
    ((ood_warnings_non_finite_value (UMap.single "age" (.inf true))
      (UMap.single "age" (F64.ofNat 30)) (UMap.single "age" (F64.ofNat 5)) F64.maxFinite "age"
      (F64.ofNat 30) (F64.ofNat 5)).2.2 true
      (by decide) (by decide) (by decide) (by decide) (by decide) (by decide) (by decide)).1,
    by decide, by decide⟩

end Engine

